import Mathlib

/-!
Shallow embedding of the Markdown-subset rendering pipeline of the
paper-analyzer repository: the inline-formatting substitutions, the block
parsers of `src/analyzer/views.py` (PDF export) and
`src/analyzer/ppt_generator.py` (PowerPoint generation), and the two
assemblers.  Functions operate on `List Char` with `String` wrappers,
mirroring Python string operations character by character; the regular
expression substitutions of the source are embedded as explicit
left-to-right scanners with the same leftmost, non-overlapping,
non-greedy semantics (`.` not matching a newline).  Character classes
(`isupper`, `\d`, `\s`) are modelled over their ASCII range.
-/

/-- Python's whitespace class as used by `str.strip` and `\s` (ASCII range:
space, tab, newline, carriage return, vertical tab, form feed). -/
def pySpaceB (c : Char) : Bool :=
  c == ' ' || c == '\t' || c == '\n' || c == '\r' || c == Char.ofNat 11 || c == Char.ofNat 12

/-- Python `str.strip()`: remove leading and trailing whitespace. -/
def pyStrip (s : List Char) : List Char :=
  ((s.dropWhile pySpaceB).reverse.dropWhile pySpaceB).reverse

/-- `String`-level `str.strip()`. -/
def pyStripS (s : String) : String :=
  ⟨pyStrip s.data⟩

/-- The first occurrence of (non-empty) `sep` in a string: the part strictly
before it and the part strictly after it.  This is the scanning primitive
behind Python's `str.split(sep)` and `sep in s`. -/
def splitFirst (sep : List Char) : List Char → Option (List Char × List Char)
  | [] => none
  | c :: rest =>
    if sep.isPrefixOf (c :: rest) then some ([], (c :: rest).drop sep.length)
    else (splitFirst sep rest).map (fun p => (c :: p.1, p.2))

/-- Python `sub in s` (for non-empty `sub`). -/
def pyIn (sub s : List Char) : Bool :=
  (splitFirst sub s).isSome

def pySplitGo (sep : List Char) : Nat → List Char → List (List Char)
  | 0, s => [s]
  | fuel+1, s =>
    match splitFirst sep s with
    | none => [s]
    | some p => p.1 :: pySplitGo sep fuel p.2

/-- Python `str.split(sep)` for non-empty `sep`.  The fuel `s.length + 1` is
always sufficient because every found separator consumes at least one
character. -/
def pySplit (sep s : List Char) : List (List Char) :=
  pySplitGo sep (s.length + 1) s

/-- Python `sep.join(chunks)`. -/
def joinWith (sep : List Char) : List (List Char) → List Char
  | [] => []
  | [l] => l
  | l :: l2 :: ls => l ++ sep ++ joinWith sep (l2 :: ls)

def scanSubF (tm : List Char → Option (List Char × List Char)) : Nat → List Char → List Char
  | 0, s => s
  | _+1, [] => []
  | fuel+1, c :: rest =>
    match tm (c :: rest) with
    | some p => p.1 ++ scanSubF tm fuel p.2
    | none => c :: scanSubF tm fuel rest

/-- Generic `re.sub`: scan left to right; at each position `tm` either
produces the replacement text together with the remainder after the match
(which must be shorter than its input for the fuel to suffice), or fails,
in which case the current character is copied and scanning resumes one
character later.  This is exactly the leftmost non-overlapping replacement
order of Python's `re.sub`. -/
def scanSub (tm : List Char → Option (List Char × List Char)) (s : List Char) : List Char :=
  scanSubF tm s.length s

/-- Lazy search for the closing two-character delimiter `d,d` (for
`(.*?)\x2a\x2a`-style tails): the shortest prefix of non-newline characters
followed by the doubled delimiter.  Returns the content and the remainder
after the delimiter. -/
def findClose2 (d : Char) : List Char → Option (List Char × List Char)
  | [] => none
  | c :: rest =>
    if c = d ∧ rest.head? = some d then some ([], rest.tail)
    else if c = '\n' then none
    else (findClose2 d rest).map (fun p => (c :: p.1, p.2))

/-- Lazy search for a single closing delimiter `d`: the shortest prefix of
non-newline characters followed by `d`. -/
def findClose1 (d : Char) : List Char → Option (List Char × List Char)
  | [] => none
  | c :: rest =>
    if c = d then some ([], rest)
    else if c = '\n' then none
    else (findClose1 d rest).map (fun p => (c :: p.1, p.2))

/-- The backquote character, written via its code point. -/
def backquote : Char := Char.ofNat 96

/-- Matcher for `\x2a\x2a(.*?)\x2a\x2a` with replacement `<b>\1</b>`
(views.py, `markdown_to_html_inline`). -/
def matchBoldStarH : List Char → Option (List Char × List Char)
  | c1 :: c2 :: rest =>
    if c1 = '*' ∧ c2 = '*' then
      (findClose2 '*' rest).map (fun p => ("<b>".toList ++ p.1 ++ "</b>".toList, p.2))
    else none
  | _ => none

/-- Matcher for `__(.*?)__` with replacement `<b>\1</b>`. -/
def matchBoldUndH : List Char → Option (List Char × List Char)
  | c1 :: c2 :: rest =>
    if c1 = '_' ∧ c2 = '_' then
      (findClose2 '_' rest).map (fun p => ("<b>".toList ++ p.1 ++ "</b>".toList, p.2))
    else none
  | _ => none

/-- Matcher for `\x2a(.*?)\x2a` with replacement `<i>\1</i>`. -/
def matchItalStarH : List Char → Option (List Char × List Char)
  | c :: rest =>
    if c = '*' then
      (findClose1 '*' rest).map (fun p => ("<i>".toList ++ p.1 ++ "</i>".toList, p.2))
    else none
  | [] => none

/-- Matcher for `_(.*?)_` with replacement `<i>\1</i>`. -/
def matchItalUndH : List Char → Option (List Char × List Char)
  | c :: rest =>
    if c = '_' then
      (findClose1 '_' rest).map (fun p => ("<i>".toList ++ p.1 ++ "</i>".toList, p.2))
    else none
  | [] => none

/-- Matcher for backquoted code spans with replacement `<code>\1</code>`. -/
def matchCodeH : List Char → Option (List Char × List Char)
  | c :: rest =>
    if c = backquote then
      (findClose1 backquote rest).map (fun p => ("<code>".toList ++ p.1 ++ "</code>".toList, p.2))
    else none
  | [] => none

/-- Matcher for `\[([^\]]+)\]\(([^)]+)\)` with replacement
`<a href="\2">\1</a>`.  Both negated classes are greedy and admit any
character (including newline) other than the closing bracket. -/
def matchLinkH : List Char → Option (List Char × List Char)
  | c :: rest =>
    if c = '[' then
      let label := rest.takeWhile (fun x => x ≠ ']')
      let r2 := rest.drop label.length
      if label ≠ [] ∧ r2.head? = some ']' ∧ r2.tail.head? = some '(' then
        let r3 := r2.tail.tail
        let url := r3.takeWhile (fun x => x ≠ ')')
        let r4 := r3.drop url.length
        if url ≠ [] ∧ r4.head? = some ')' then
          some ("<a href=".toList ++ '"' :: url ++ '"' :: '>' :: label
                ++ "</a>".toList, r4.tail)
        else none
      else none
    else none
  | [] => none

/-- Matcher for `\x2a\x2a(.*?)\x2a\x2a` with replacement `\1`
(ppt_generator.py, `_parse_inline_formatting`). -/
def matchBoldStarP : List Char → Option (List Char × List Char)
  | c1 :: c2 :: rest =>
    if c1 = '*' ∧ c2 = '*' then findClose2 '*' rest
    else none
  | _ => none

/-- Matcher for `\x2a(.*?)\x2a` with replacement `\1`. -/
def matchItalStarP : List Char → Option (List Char × List Char)
  | c :: rest =>
    if c = '*' then findClose1 '*' rest
    else none
  | [] => none

/-- Matcher for backquoted code spans with replacement `\1`. -/
def matchCodeP : List Char → Option (List Char × List Char)
  | c :: rest =>
    if c = backquote then findClose1 backquote rest
    else none
  | [] => none

/-- The inline-substitution pipeline of `markdown_to_html_inline`
(views.py lines 634-653), in source order: bold (doubled star), bold
(doubled underscore), italic (single star), italic (single underscore),
code, links. -/
def htmlInline (s : List Char) : List Char :=
  scanSub matchLinkH
    (scanSub matchCodeH
      (scanSub matchItalUndH
        (scanSub matchItalStarH
          (scanSub matchBoldUndH
            (scanSub matchBoldStarH s)))))

/-- `markdown_to_html_inline(text)` of views.py, including its empty-input
guard. -/
def markdown_to_html_inline (s : String) : String :=
  if s = "" then "" else ⟨htmlInline s.data⟩

/-- The inline pipeline of `_parse_inline_formatting` (ppt_generator.py
lines 666-682): strip bold, italic and code markers, keeping the content. -/
def pptInline (s : List Char) : List Char :=
  scanSub matchCodeP (scanSub matchItalStarP (scanSub matchBoldStarP s))

/-- `_parse_inline_formatting(text)` of ppt_generator.py. -/
def parse_inline_formatting (s : String) : String :=
  ⟨pptInline s.data⟩

/-! ### Block-level predicates shared by both parsers -/

/-- A line (already stripped) that opens a bullet item: prefix `- ` or a
star followed by a space. -/
def isBulletLine (s : List Char) : Bool :=
  "- ".toList.isPrefixOf s || ('*' :: ' ' :: ([] : List Char)).isPrefixOf s

/-- The regex `^(\d+)\.\s+(.*)$` applied to a stripped line: on success
returns capture group 2 (the text after the greedy whitespace run). -/
def numItem (s : List Char) : Option (List Char) :=
  let digits := s.takeWhile Char.isDigit
  if digits = [] then none
  else
    match s.drop digits.length with
    | '.' :: rest =>
      let sp := rest.takeWhile pySpaceB
      if sp = [] then none else some (rest.drop sp.length)
    | _ => none

/-- A stripped line that opens or closes a code fence (three backquotes or
three tildes). -/
def fenceStartB (s : List Char) : Bool :=
  (backquote :: backquote :: backquote :: ([] : List Char)).isPrefixOf s
  || "~~~".toList.isPrefixOf s

/-! ### DocumentRenderer: `parse_markdown_to_flowables` (views.py 488-632) -/

/-- The paragraph style attached to a ReportLab flowable in the PDF
export.  `nested` carries the computed `leftIndent` of the ad-hoc nested
list style. -/
inductive PStyle where
  | body
  | code
  | listItem
  | nested (indent : Nat)
  | heading
  | titleStyle
deriving DecidableEq

/-- A ReportLab flowable as produced by the PDF export: a `Paragraph` with
its markup text and style, or a `Spacer` whose height is recorded in
thousandths of an inch (`0.05 * inch` is `50`). -/
inductive Flowable where
  | par (text : String) (style : PStyle)
  | spacer (milliInch : Nat)
deriving DecidableEq

/-- The stop condition of the multi-line paragraph accumulation loop
(views.py 609-624): a paragraph run continues while the line is non-blank
and is not a list item, a line starting with a hash, or a fence. -/
def paraLineOK (l : List Char) : Bool :=
  let ls := pyStrip l
  !ls.isEmpty && !isBulletLine ls && !(numItem ls).isSome
    && !(ls.head? == some '#') && !fenceStartB ls

/-- The nested-item lookahead loop inside the list branch
(views.py 546-587): consumes immediately following, more indented
bullet/numbered lines, emitting each with the ad-hoc `Nested` style of
indent `20 + next_indent`; stops at a blank line, a non-indented line or
a non-list line, which is left for the outer loop. -/
def nestedItems (baseIndent : Nat) : List (List Char) → List Flowable × List (List Char)
  | [] => ([], [])
  | line :: rest =>
    let ns := pyStrip line
    if ns = [] then ([], line :: rest)
    else
      let ni := (line.takeWhile pySpaceB).length
      if baseIndent < ni then
        if isBulletLine ns then
          let r := nestedItems baseIndent rest
          (Flowable.par ⟨"• ".toList ++ htmlInline (pyStrip (ns.drop 2))⟩ (.nested (20 + ni)) :: r.1,
           r.2)
        else
          match numItem ns with
          | some _ =>
            let r := nestedItems baseIndent rest
            (Flowable.par ⟨htmlInline ns⟩ (.nested (20 + ni)) :: r.1, r.2)
          | none => ([], line :: rest)
      else ([], line :: rest)

/-- One outer iteration of the `while i < len(lines)` loop of
`parse_markdown_to_flowables`, with fuel.  The source loop does not
advance `i` when a line starting with a single hash reaches the paragraph
branch (the accumulation loop stops immediately and `para_lines` stays
empty), so Python loops forever there; the fuel models that divergence by
giving up.  For every input whose lines all make progress the fuel
`lines.length + 1` is never exhausted. -/
def pmfGo : Nat → List (List Char) → List Flowable
  | 0, _ => []
  | _+1, [] => []
  | fuel+1, line :: rest =>
    let stripped := pyStrip line
    if stripped = [] then pmfGo fuel rest
    else if fenceStartB stripped then
      let codeLines := rest.takeWhile (fun l => !fenceStartB (pyStrip l))
      let rest2 := (rest.dropWhile (fun l => !fenceStartB (pyStrip l))).drop 1
      Flowable.par ⟨"<code>".toList ++ joinWith "<br/>".toList codeLines ++ "</code>".toList⟩ .code
        :: pmfGo fuel rest2
    else if isBulletLine stripped || (numItem stripped).isSome then
      let baseIndent := (line.takeWhile pySpaceB).length
      let item :=
        if isBulletLine stripped then
          Flowable.par ⟨"• ".toList ++ htmlInline (pyStrip (stripped.drop 2))⟩ .listItem
        else
          Flowable.par ⟨htmlInline stripped⟩ .listItem
      let r := nestedItems baseIndent rest
      item :: (r.1 ++ Flowable.spacer 50 :: pmfGo fuel r.2)
    else if "###".toList.isPrefixOf stripped then
      Flowable.par ⟨"<b>".toList ++ htmlInline (pyStrip (stripped.drop 3)) ++ "</b>".toList⟩ .body
        :: Flowable.spacer 100 :: pmfGo fuel rest
    else if "##".toList.isPrefixOf stripped then
      Flowable.par ⟨"<b>".toList ++ htmlInline (pyStrip (stripped.drop 2)) ++ "</b>".toList⟩ .body
        :: Flowable.spacer 100 :: pmfGo fuel rest
    else
      let paraLines := (line :: rest).takeWhile paraLineOK
      let rest2 := (line :: rest).dropWhile paraLineOK
      if paraLines = [] then pmfGo fuel rest2
      else
        Flowable.par ⟨htmlInline (joinWith [' '] (paraLines.map pyStrip))⟩ .body
          :: Flowable.spacer 100 :: pmfGo fuel rest2

/-- `parse_markdown_to_flowables(text, ...)` of views.py, including its
empty-input guard. -/
def parse_markdown_to_flowables (text : String) : List Flowable :=
  if text = "" then []
  else
    let lines := pySplit ['\n'] text.data
    pmfGo (lines.length + 1) lines

/-! ### SlideRenderer: `_add_formatted_text` (ppt_generator.py 535-664) -/

/-- The kind of a paragraph added to a PowerPoint text frame. -/
inductive PKind where
  | blank
  | header
  | bullet
  | numbered
  | plain
deriving DecidableEq

/-- One paragraph of a PowerPoint text frame: its kind and its text. -/
structure SPara where
  kind : PKind
  text : String
deriving DecidableEq

/-- The loop state of `_add_formatted_text`: the text frame's paragraphs,
whether `current_paragraph` is set (it is then always the frame's last
paragraph), the `bullet_count` counter, and whether the `break` statement
has fired. -/
structure FmtState where
  frame : List SPara
  started : Bool
  count : Nat
  stopped : Bool
deriving DecidableEq

/-- `current_paragraph.text += " " + para_text`: append to the text of the
last paragraph of the frame. -/
def modLast : List SPara → String → List SPara
  | [], _ => []
  | [p], a => [{ p with text := p.text ++ " " ++ a }]
  | p :: q :: ps, a => p :: modLast (q :: ps) a

/-- First character of a stripped line is an upper-case letter
(`stripped[0].isupper()`, ASCII range). -/
def headUpper (s : List Char) : Bool :=
  match s with
  | c :: _ => c.isUpper
  | [] => false

/-- Processing of one line of `_add_formatted_text`
(ppt_generator.py 555-662): blank spacing paragraphs, `###` headers
(resetting `bullet_count`), bullet and numbered items (limited to
`max_bullets_per_slide = 6` shared with paragraph starts, truncated at 100
characters to 97 plus an ellipsis, then stripped of inline markers), and
plain paragraphs (inline-stripped, truncated at 150 to 147 plus ellipsis,
appended to the current paragraph when the line does not start with an
upper-case character). -/
def stepLine (st : FmtState) (line : List Char) : FmtState :=
  if st.stopped then st
  else
    let stripped := pyStrip line
    if stripped = [] then
      if st.started then { st with frame := st.frame ++ [⟨.blank, ""⟩] } else st
    else if "###".toList.isPrefixOf stripped then
      { st with frame := st.frame ++ [⟨.header, ⟨pyStrip (stripped.drop 3)⟩⟩],
                started := true, count := 0 }
    else if isBulletLine stripped then
      if 6 ≤ st.count then { st with stopped := true }
      else
        let btext := pyStrip (stripped.drop 2)
        let btext := if 100 < btext.length then btext.take 97 ++ "...".toList else btext
        { st with frame := st.frame ++ [⟨.bullet, ⟨pptInline btext⟩⟩],
                  started := true, count := st.count + 1 }
    else
      match numItem stripped with
      | some ntext =>
        if 6 ≤ st.count then { st with stopped := true }
        else
          let ntext := if 100 < ntext.length then ntext.take 97 ++ "...".toList else ntext
          { st with frame := st.frame ++ [⟨.numbered, ⟨pptInline ntext⟩⟩],
                    started := true, count := st.count + 1 }
      | none =>
        let ptext := pptInline stripped
        let ptext := if 150 < ptext.length then ptext.take 147 ++ "...".toList else ptext
        if st.started ∧ ¬ headUpper stripped then
          { st with frame := modLast st.frame ⟨ptext⟩ }
        else
          { st with frame := st.frame ++ [⟨.plain, ⟨ptext⟩⟩],
                    started := true, count := st.count + 1 }

/-- `_add_formatted_text(text_frame, content)`: fold the line loop over the
lines of `content`, starting from the given frame with `current_paragraph
= None` and `bullet_count = 0`; returns the resulting frame.  The
empty-content guard of the source returns the frame unchanged. -/
def add_formatted_text (frame : List SPara) (content : String) : List SPara :=
  if content = "" then frame
  else ((pySplit ['\n'] content.data).foldl stepLine ⟨frame, false, 0, false⟩).frame

/-- Number of bullet/numbered list items in a frame. -/
def countListItems (frame : List SPara) : Nat :=
  (frame.filter (fun p => p.kind = PKind.bullet ∨ p.kind = PKind.numbered)).length

/-! ### SlideDeckAssembler: `PowerPointGenerator.generate` and
`generate_powerpoint` (ppt_generator.py 70-141, 706-771).

`analysis_data` is a Python dict of strings; it is embedded as an
association list so that a missing key and a key mapped to the empty
string stay distinguishable (`dict.get(k, default)`). -/

/-- `analysis_data.get(k, dflt)`. -/
def dget (d : List (String × String)) (k dflt : String) : String :=
  match d.lookup k with
  | some v => v
  | none => dflt

/-- Python `sub in s` at `String` level. -/
def pyInS (sub s : String) : Bool :=
  pyIn sub.data s.data

/-- Truthiness of `content and content.strip()`: the guard every section
slide uses before being emitted. -/
def nonblankB (s : String) : Bool :=
  (s != "") && (pyStripS s != "")

/-- The content used for the Introduction slide
(`analysis_data.get('introduction', analysis_data.get('abstract', ''))`). -/
def introduction_content (d : List (String × String)) : String :=
  dget d "introduction" (dget d "abstract" "")

/-- The content used for the Literature Review slide, with its fallback
extraction of a `### Related Work` section from the introduction
(ppt_generator.py 275-284). -/
def literature_review_content (d : List (String × String)) : String :=
  let lr := dget d "literature_review" ""
  if lr ≠ "" then lr
  else
    let intro := dget d "introduction" ""
    if pyInS "Related Work" intro || pyInS "### Related Work" intro then
      let parts := pySplit "### Related Work".toList intro.data
      if 1 < parts.length then
        ⟨"### Related Work\n".toList ++ ((pySplit "###".toList ((parts.get? 1).getD [])).headD [])⟩
      else lr
    else lr

/-- Methodology Overview content: the text before the first `###`
(`sections = methodology.split('###'); overview = sections[0]`,
ppt_generator.py 320-326). -/
def methodology_overview_content (m : String) : String :=
  let sections := pySplit "###".toList m.data
  if sections ≠ [] then ⟨sections.headD []⟩ else m

/-- Technical Details content: everything after the first `###`
(`'###'.join(sections[1:])` when a `###` exists, else the whole field,
ppt_generator.py 335-341). -/
def technical_details_content (m : String) : String :=
  let sections := pySplit "###".toList m.data
  if 1 < sections.length then ⟨joinWith "###".toList sections.tail⟩ else m

/-- Experimental Setup content: the lines strictly before the first line
containing one of the three results-heading phrases, falling back to the
whole field when no line precedes the heading (ppt_generator.py 353-365). -/
def setup_content (e : String) : String :=
  let lines := pySplit ['\n'] e.data
  let setupLines := lines.takeWhile (fun l =>
    !(pyIn "### Key Results".toList l || pyIn "### Key Quantitative Results".toList l
      || pyIn "### Main Findings".toList l))
  if setupLines ≠ [] then ⟨joinWith ['\n'] setupLines⟩ else e

/-- Quantitative Results content: the lines from the first line containing
`### Key Results` or `### Key Quantitative Results` onward, falling back
to the whole field when there is no such line (ppt_generator.py 377-388).
Note the phrase set differs from the setup split: `### Main Findings` is
not a results trigger here. -/
def quantitative_results_content (e : String) : String :=
  let lines := pySplit ['\n'] e.data
  let resultsLines := lines.dropWhile (fun l =>
    !(pyIn "### Key Results".toList l || pyIn "### Key Quantitative Results".toList l))
  if resultsLines ≠ [] then ⟨joinWith ['\n'] resultsLines⟩ else e

/-- Qualitative Analysis content: `results_analysis`, augmented with the
`### Main Findings` section extracted from the experiments field
(ppt_generator.py 395-411). -/
def qualitative_content (d : List (String × String)) : String :=
  let ra := dget d "results_analysis" ""
  let exp := dget d "what_does_paper_do" ""
  let content := if ra ≠ "" then ra else ""
  if pyInS "### Main Findings" exp then
    let parts := pySplit "### Main Findings".toList exp.data
    if 1 < parts.length then
      let findings : String := ⟨(pySplit "###".toList ((parts.get? 1).getD [])).headD []⟩
      if content ≠ "" then content ++ "\n\n### Main Findings\n" ++ findings
      else "### Main Findings\n" ++ findings
    else content
  else content

/-- A slide of the generated deck, identified by the section that emitted
it.  Cover and Thank-You are always emitted; every other slide is guarded
by `if content and content.strip()`.  All content slides are produced with
`max_slides=1`, so the continuation-slide loop of
`_add_content_to_frame` (`while ... and current_slide < max_slides - 1`)
never adds a slide and is omitted. -/
inductive Slide where
  | cover
  | introduction
  | literatureReview
  | motivation
  | mainIdea
  | methodologyOverview
  | technicalDetails
  | experimentalSetup
  | quantitativeResults
  | qualitativeAnalysis
  | discussion
  | conclusion
  | thankYou
deriving DecidableEq

/-- `PowerPointGenerator.generate()`: the slide sequence of the deck
(ppt_generator.py 70-141), one slide per non-blank section in the fixed
order of the source, between the unconditional cover and thank-you
slides. -/
def generate (d : List (String × String)) : List Slide :=
  [Slide.cover]
  ++ (if nonblankB (introduction_content d) then [Slide.introduction] else [])
  ++ (if nonblankB (literature_review_content d) then [Slide.literatureReview] else [])
  ++ (if nonblankB (dget d "motivation" "") then [Slide.motivation] else [])
  ++ (if nonblankB (dget d "contribution" "") then [Slide.mainIdea] else [])
  ++ (if nonblankB (dget d "how_does_paper_do" "") then [Slide.methodologyOverview] else [])
  ++ (if nonblankB (dget d "how_does_paper_do" "") then [Slide.technicalDetails] else [])
  ++ (if nonblankB (dget d "what_does_paper_do" "") then [Slide.experimentalSetup] else [])
  ++ (if nonblankB (dget d "what_does_paper_do" "") then [Slide.quantitativeResults] else [])
  ++ (if nonblankB (qualitative_content d) then [Slide.qualitativeAnalysis] else [])
  ++ (if nonblankB (dget d "discussion" "") then [Slide.discussion] else [])
  ++ (if nonblankB (dget d "conclusion" "") then [Slide.conclusion] else [])
  ++ [Slide.thankYou]

/-- The field list the empty-content guard of `generate_powerpoint`
inspects (ppt_generator.py 732-734). -/
def content_fields : List String :=
  ["introduction", "literature_review", "motivation", "contribution",
   "how_does_paper_do", "what_does_paper_do", "results_analysis",
   "discussion", "conclusion", "future_work"]

/-- `generate_powerpoint(analysis_data, metadata)` (ppt_generator.py
706-771): raises on an empty dict, raises `"Analysis data contains no
content for slides"` when no content field is truthy (note: truthiness,
not `strip()` — a whitespace-only field counts as content), otherwise
builds the deck.  Metadata only affects slide payloads, never the slide
sequence, and is omitted. -/
def generate_powerpoint (d : List (String × String)) : Except String (List Slide) :=
  if d = [] then Except.error "Analysis data is empty"
  else
    let hasContent := content_fields.any (fun f => ((d.lookup f).getD "") != "")
    if hasContent = false then Except.error "Analysis data contains no content for slides"
    else Except.ok (generate d)

/-! ### ReportAssembler: `export_analysis_pdf` (views.py 412-691) -/

/-- The `PaperAnalysis` fields used by the PDF export. -/
structure Analysis where
  title : String
  abstract : String
  introduction : String
  motivation : String
  contribution : String
  how_does_paper_do : String
  what_does_paper_do : String
  limitations_challenges : String
  future_work : String
  conclusion : String
deriving DecidableEq

/-- `add_section(title, content)` of the PDF export (views.py 663-668):
a heading, the parsed flowables and a spacer for a truthy content string,
nothing for a falsy one. -/
def add_section (title content : String) : List Flowable :=
  if content ≠ "" then
    Flowable.par title .heading :: (parse_markdown_to_flowables content ++ [Flowable.spacer 200])
  else []

/-- The story (flowable list) built by `export_analysis_pdf`
(views.py 655-682): the title, a spacer, then the nine fixed sections.
There is no empty-content guard on this path; `doc.build(story)` always
runs on whatever story results. -/
def buildStory (a : Analysis) : List Flowable :=
  [Flowable.par a.title .titleStyle, Flowable.spacer 200]
  ++ add_section "Abstract" a.abstract
  ++ add_section "Introduction" a.introduction
  ++ add_section "Motivation" a.motivation
  ++ add_section "Contribution" a.contribution
  ++ add_section "Methodology" a.how_does_paper_do
  ++ add_section "Experiments & Results" a.what_does_paper_do
  ++ add_section "Limitations & Challenges" a.limitations_challenges
  ++ add_section "Future Work" a.future_work
  ++ add_section "Conclusion" a.conclusion

/-! ### Lemmas about the generic substitution scanner -/

theorem scanSubF_congr (tm : List Char → Option (List Char × List Char))
    (htm : ∀ s p, tm s = some p → p.2.length < s.length) :
    ∀ f f' s, s.length ≤ f → s.length ≤ f' → scanSubF tm f s = scanSubF tm f' s := by
  intro f
  induction f with
  | zero =>
    intro f' s h h'
    have hs : s = [] := List.length_eq_zero.mp (Nat.le_zero.mp h)
    subst hs
    cases f' <;> rfl
  | succ n ih =>
    intro f' s h h'
    cases s with
    | nil => cases f' <;> rfl
    | cons c rest =>
      cases f' with
      | zero => exact absurd h' (by simp)
      | succ m =>
        show (match tm (c :: rest) with
              | some p => p.1 ++ scanSubF tm n p.2
              | none => c :: scanSubF tm n rest) =
             (match tm (c :: rest) with
              | some p => p.1 ++ scanSubF tm m p.2
              | none => c :: scanSubF tm m rest)
        cases htc : tm (c :: rest) with
        | none =>
          have hr : rest.length ≤ n := Nat.le_of_succ_le_succ h
          have hr' : rest.length ≤ m := Nat.le_of_succ_le_succ h'
          simp [ih m rest hr hr']
        | some p =>
          have hp : p.2.length < (c :: rest).length := htm _ _ htc
          have h1 : p.2.length ≤ n := Nat.le_of_lt_succ (Nat.lt_of_lt_of_le hp h)
          have h2 : p.2.length ≤ m := Nat.le_of_lt_succ (Nat.lt_of_lt_of_le hp h')
          simp [ih m p.2 h1 h2]

theorem scanSub_cons_none (tm : List Char → Option (List Char × List Char))
    (c : Char) (rest : List Char) (h : tm (c :: rest) = none) :
    scanSub tm (c :: rest) = c :: scanSub tm rest := by
  show scanSubF tm (rest.length + 1) (c :: rest) = c :: scanSubF tm rest.length rest
  show (match tm (c :: rest) with
        | some p => p.1 ++ scanSubF tm rest.length p.2
        | none => c :: scanSubF tm rest.length rest) = _
  rw [h]

theorem scanSub_cons_some (tm : List Char → Option (List Char × List Char))
    (htm : ∀ s p, tm s = some p → p.2.length < s.length)
    (c : Char) (rest : List Char) (p : List Char × List Char) (h : tm (c :: rest) = some p) :
    scanSub tm (c :: rest) = p.1 ++ scanSub tm p.2 := by
  show scanSubF tm (rest.length + 1) (c :: rest) = p.1 ++ scanSubF tm p.2.length p.2
  show (match tm (c :: rest) with
        | some q => q.1 ++ scanSubF tm rest.length q.2
        | none => c :: scanSubF tm rest.length rest) = _
  rw [h]
  have hp : p.2.length < rest.length + 1 := by
    simpa using htm _ _ h
  show p.1 ++ scanSubF tm rest.length p.2 = p.1 ++ scanSubF tm p.2.length p.2
  rw [scanSubF_congr tm htm rest.length p.2.length p.2 (Nat.le_of_lt_succ hp) (Nat.le_refl _)]

theorem scanSub_no_key (tm : List Char → Option (List Char × List Char)) (key : Char)
    (hk : ∀ c rest, c ≠ key → tm (c :: rest) = none) :
    ∀ s, key ∉ s → scanSub tm s = s := by
  intro s
  induction s with
  | nil => intro _; rfl
  | cons c rest ih =>
    intro h
    have hc : c ≠ key := fun e => h (e ▸ List.mem_cons_self c rest)
    rw [scanSub_cons_none tm c rest (hk c rest hc), ih (fun hm => h (List.mem_cons_of_mem c hm))]

theorem scanSub_append_no_key (tm : List Char → Option (List Char × List Char)) (key : Char)
    (hk : ∀ c rest, c ≠ key → tm (c :: rest) = none) :
    ∀ pre rest, key ∉ pre → scanSub tm (pre ++ rest) = pre ++ scanSub tm rest := by
  intro pre
  induction pre with
  | nil => intro rest _; rfl
  | cons c pre' ih =>
    intro rest h
    have hc : c ≠ key := fun e => h (e ▸ List.mem_cons_self c pre')
    rw [List.cons_append, scanSub_cons_none tm c (pre' ++ rest) (hk c _ hc),
        ih rest (fun hm => h (List.mem_cons_of_mem c hm))]
    rfl

/-! ### Lemmas about the lazy closing-delimiter searches -/

theorem findClose2_len (d : Char) :
    ∀ s p, findClose2 d s = some p → p.1.length + 2 + p.2.length = s.length := by
  intro s
  induction s with
  | nil => intro p h; exact absurd h (by simp [findClose2])
  | cons c rest ih =>
    intro p h
    rw [findClose2] at h
    by_cases h1 : c = d ∧ rest.head? = some d
    · rw [if_pos h1] at h
      cases h
      cases rest with
      | nil => exact absurd h1.2 (by simp)
      | cons r rs => simp; omega
    · rw [if_neg h1] at h
      by_cases h2 : c = '\n'
      · rw [if_pos h2] at h; exact absurd h (by simp)
      · rw [if_neg h2] at h
        rcases Option.map_eq_some'.mp h with ⟨q, hq, hpq⟩
        have := ih q hq
        subst hpq
        simp only [List.length_cons]
        omega

theorem findClose1_len (d : Char) :
    ∀ s p, findClose1 d s = some p → p.1.length + 1 + p.2.length = s.length := by
  intro s
  induction s with
  | nil => intro p h; exact absurd h (by simp [findClose1])
  | cons c rest ih =>
    intro p h
    rw [findClose1] at h
    by_cases h1 : c = d
    · rw [if_pos h1] at h
      cases h
      simp
      omega
    · rw [if_neg h1] at h
      by_cases h2 : c = '\n'
      · rw [if_pos h2] at h; exact absurd h (by simp)
      · rw [if_neg h2] at h
        rcases Option.map_eq_some'.mp h with ⟨q, hq, hpq⟩
        have := ih q hq
        subst hpq
        simp only [List.length_cons]
        omega

theorem findClose2_fire (d : Char) :
    ∀ mid post, d ∉ mid → '\n' ∉ mid →
      findClose2 d (mid ++ d :: d :: post) = some (mid, post) := by
  intro mid
  induction mid with
  | nil =>
    intro post _ _
    rw [List.nil_append, findClose2]
    simp
  | cons m mid' ih =>
    intro post hd hn
    have hm : m ≠ d := fun e => hd (e ▸ List.mem_cons_self m mid')
    have hm' : m ≠ '\n' := fun e => hn (e ▸ List.mem_cons_self m mid')
    rw [List.cons_append, findClose2, if_neg (fun hh => hm hh.1), if_neg hm',
        ih post (fun h => hd (List.mem_cons_of_mem m h)) (fun h => hn (List.mem_cons_of_mem m h))]
    rfl

theorem findClose1_fire (d : Char) :
    ∀ mid post, d ∉ mid → '\n' ∉ mid →
      findClose1 d (mid ++ d :: post) = some (mid, post) := by
  intro mid
  induction mid with
  | nil =>
    intro post _ _
    rw [List.nil_append, findClose1]
    simp
  | cons m mid' ih =>
    intro post hd hn
    have hm : m ≠ d := fun e => hd (e ▸ List.mem_cons_self m mid')
    have hm' : m ≠ '\n' := fun e => hn (e ▸ List.mem_cons_self m mid')
    rw [List.cons_append, findClose1, if_neg hm, if_neg hm',
        ih post (fun h => hd (List.mem_cons_of_mem m h)) (fun h => hn (List.mem_cons_of_mem m h))]
    rfl

/-! ### Shrink, no-match and fire lemmas for the individual matchers -/

theorem matchBoldStarH_shrink :
    ∀ s p, matchBoldStarH s = some p → p.2.length < s.length := by
  intro s p h
  match s with
  | [] => simp [matchBoldStarH] at h
  | [c] => simp [matchBoldStarH] at h
  | c1 :: c2 :: rest =>
    rw [matchBoldStarH] at h
    by_cases hc : c1 = '*' ∧ c2 = '*'
    · rw [if_pos hc] at h
      rcases Option.map_eq_some'.mp h with ⟨q, hq, hpq⟩
      have := findClose2_len '*' rest q hq
      subst hpq
      simp only [List.length_cons]
      omega
    · rw [if_neg hc] at h
      exact absurd h (by simp)

theorem matchBoldUndH_shrink :
    ∀ s p, matchBoldUndH s = some p → p.2.length < s.length := by
  intro s p h
  match s with
  | [] => simp [matchBoldUndH] at h
  | [c] => simp [matchBoldUndH] at h
  | c1 :: c2 :: rest =>
    rw [matchBoldUndH] at h
    by_cases hc : c1 = '_' ∧ c2 = '_'
    · rw [if_pos hc] at h
      rcases Option.map_eq_some'.mp h with ⟨q, hq, hpq⟩
      have := findClose2_len '_' rest q hq
      subst hpq
      simp only [List.length_cons]
      omega
    · rw [if_neg hc] at h
      exact absurd h (by simp)

theorem matchBoldStarP_shrink :
    ∀ s p, matchBoldStarP s = some p → p.2.length < s.length := by
  intro s p h
  match s with
  | [] => simp [matchBoldStarP] at h
  | [c] => simp [matchBoldStarP] at h
  | c1 :: c2 :: rest =>
    rw [matchBoldStarP] at h
    by_cases hc : c1 = '*' ∧ c2 = '*'
    · rw [if_pos hc] at h
      have := findClose2_len '*' rest p h
      simp only [List.length_cons]
      omega
    · rw [if_neg hc] at h
      exact absurd h (by simp)

theorem matchItalStarH_shrink :
    ∀ s p, matchItalStarH s = some p → p.2.length < s.length := by
  intro s p h
  match s with
  | [] => simp [matchItalStarH] at h
  | c :: rest =>
    rw [matchItalStarH] at h
    by_cases hc : c = '*'
    · rw [if_pos hc] at h
      rcases Option.map_eq_some'.mp h with ⟨q, hq, hpq⟩
      have := findClose1_len '*' rest q hq
      subst hpq
      simp only [List.length_cons]
      omega
    · rw [if_neg hc] at h
      exact absurd h (by simp)

theorem matchItalUndH_shrink :
    ∀ s p, matchItalUndH s = some p → p.2.length < s.length := by
  intro s p h
  match s with
  | [] => simp [matchItalUndH] at h
  | c :: rest =>
    rw [matchItalUndH] at h
    by_cases hc : c = '_'
    · rw [if_pos hc] at h
      rcases Option.map_eq_some'.mp h with ⟨q, hq, hpq⟩
      have := findClose1_len '_' rest q hq
      subst hpq
      simp only [List.length_cons]
      omega
    · rw [if_neg hc] at h
      exact absurd h (by simp)

theorem matchCodeH_shrink :
    ∀ s p, matchCodeH s = some p → p.2.length < s.length := by
  intro s p h
  match s with
  | [] => simp [matchCodeH] at h
  | c :: rest =>
    rw [matchCodeH] at h
    by_cases hc : c = backquote
    · rw [if_pos hc] at h
      rcases Option.map_eq_some'.mp h with ⟨q, hq, hpq⟩
      have := findClose1_len backquote rest q hq
      subst hpq
      simp only [List.length_cons]
      omega
    · rw [if_neg hc] at h
      exact absurd h (by simp)

theorem matchItalStarP_shrink :
    ∀ s p, matchItalStarP s = some p → p.2.length < s.length := by
  intro s p h
  match s with
  | [] => simp [matchItalStarP] at h
  | c :: rest =>
    rw [matchItalStarP] at h
    by_cases hc : c = '*'
    · rw [if_pos hc] at h
      have := findClose1_len '*' rest p h
      simp only [List.length_cons]
      omega
    · rw [if_neg hc] at h
      exact absurd h (by simp)

theorem matchCodeP_shrink :
    ∀ s p, matchCodeP s = some p → p.2.length < s.length := by
  intro s p h
  match s with
  | [] => simp [matchCodeP] at h
  | c :: rest =>
    rw [matchCodeP] at h
    by_cases hc : c = backquote
    · rw [if_pos hc] at h
      have := findClose1_len backquote rest p h
      simp only [List.length_cons]
      omega
    · rw [if_neg hc] at h
      exact absurd h (by simp)

theorem matchLinkH_shrink :
    ∀ s p, matchLinkH s = some p → p.2.length < s.length := by
  intro s p h
  match s with
  | [] => simp [matchLinkH] at h
  | c :: rest =>
    rw [matchLinkH] at h
    by_cases hc : c = '['
    · rw [if_pos hc] at h
      dsimp only at h
      split_ifs at h with h1 h2
      · cases h
        have e1 : (rest.drop (rest.takeWhile (fun x => x ≠ ']')).length).length ≤ rest.length := by
          simp
        have e2 : ∀ l : List Char, l.tail.length ≤ l.length := by
          intro l; simp [List.length_tail]
        have e3 : ∀ (l : List Char) n, (l.drop n).length ≤ l.length := by
          intro l n; simp
        calc ((rest.drop (rest.takeWhile (fun x => x ≠ ']')).length).tail.tail.drop
                ((rest.drop (rest.takeWhile (fun x => x ≠ ']')).length).tail.tail.takeWhile
                  (fun x => x ≠ ')')).length).tail.length
            ≤ ((rest.drop (rest.takeWhile (fun x => x ≠ ']')).length).tail.tail.drop
                ((rest.drop (rest.takeWhile (fun x => x ≠ ']')).length).tail.tail.takeWhile
                  (fun x => x ≠ ')')).length).length := e2 _
          _ ≤ (rest.drop (rest.takeWhile (fun x => x ≠ ']')).length).tail.tail.length := e3 _ _
          _ ≤ (rest.drop (rest.takeWhile (fun x => x ≠ ']')).length).tail.length := e2 _
          _ ≤ (rest.drop (rest.takeWhile (fun x => x ≠ ']')).length).length := e2 _
          _ ≤ rest.length := e1
          _ < (c :: rest).length := by simp
    · rw [if_neg hc] at h
      exact absurd h (by simp)

theorem matchBoldStarH_no_key :
    ∀ c rest, c ≠ '*' → matchBoldStarH (c :: rest) = none := by
  intro c rest hc
  match rest with
  | [] => rfl
  | c2 :: rest' => rw [matchBoldStarH, if_neg (fun hh => hc hh.1)]

theorem matchBoldUndH_no_key :
    ∀ c rest, c ≠ '_' → matchBoldUndH (c :: rest) = none := by
  intro c rest hc
  match rest with
  | [] => rfl
  | c2 :: rest' => rw [matchBoldUndH, if_neg (fun hh => hc hh.1)]

theorem matchBoldStarP_no_key :
    ∀ c rest, c ≠ '*' → matchBoldStarP (c :: rest) = none := by
  intro c rest hc
  match rest with
  | [] => rfl
  | c2 :: rest' => rw [matchBoldStarP, if_neg (fun hh => hc hh.1)]

theorem matchItalStarH_no_key :
    ∀ c rest, c ≠ '*' → matchItalStarH (c :: rest) = none := by
  intro c rest hc
  rw [matchItalStarH, if_neg hc]

theorem matchItalUndH_no_key :
    ∀ c rest, c ≠ '_' → matchItalUndH (c :: rest) = none := by
  intro c rest hc
  rw [matchItalUndH, if_neg hc]

theorem matchCodeH_no_key :
    ∀ c rest, c ≠ backquote → matchCodeH (c :: rest) = none := by
  intro c rest hc
  rw [matchCodeH, if_neg hc]

theorem matchItalStarP_no_key :
    ∀ c rest, c ≠ '*' → matchItalStarP (c :: rest) = none := by
  intro c rest hc
  rw [matchItalStarP, if_neg hc]

theorem matchCodeP_no_key :
    ∀ c rest, c ≠ backquote → matchCodeP (c :: rest) = none := by
  intro c rest hc
  rw [matchCodeP, if_neg hc]

theorem matchLinkH_no_key :
    ∀ c rest, c ≠ '[' → matchLinkH (c :: rest) = none := by
  intro c rest hc
  rw [matchLinkH, if_neg hc]

theorem matchBoldStarH_fire (mid post : List Char) (h1 : '*' ∉ mid) (h2 : '\n' ∉ mid) :
    matchBoldStarH ('*' :: '*' :: (mid ++ '*' :: '*' :: post))
      = some ("<b>".toList ++ mid ++ "</b>".toList, post) := by
  rw [matchBoldStarH, if_pos ⟨rfl, rfl⟩, findClose2_fire '*' mid post h1 h2]
  rfl

theorem matchBoldStarP_fire (mid post : List Char) (h1 : '*' ∉ mid) (h2 : '\n' ∉ mid) :
    matchBoldStarP ('*' :: '*' :: (mid ++ '*' :: '*' :: post)) = some (mid, post) := by
  rw [matchBoldStarP, if_pos ⟨rfl, rfl⟩, findClose2_fire '*' mid post h1 h2]

theorem notin_append3 {k : Char} {a b c : List Char}
    (h1 : k ∉ a) (h2 : k ∉ b) (h3 : k ∉ c) : k ∉ a ++ b ++ c := by
  intro hmem
  rcases List.mem_append.mp hmem with hm | hm
  · rcases List.mem_append.mp hm with hm' | hm'
    · exact h1 hm'
    · exact h2 hm'
  · exact h3 hm

theorem mk_ne_empty (l : List Char) (h : l ≠ []) : (⟨l⟩ : String) ≠ "" :=
  fun e => h (congrArg String.data e)

/-! ### Claim theorems: closed computations -/

/-- C5: feeding the field text `"### Results\n- Accuracy: 92%\n- Speed:
10ms\n\nSummary text here."` through the DocumentRenderer's block parsing
yields exactly, in source-line order: one heading `Results` (rendered as
the bold body paragraph the source emits for a `###` line), one bullet
item `Accuracy: 92%`, one bullet item `Speed: 10ms`, and one paragraph
`Summary text here.`, each followed by the source's spacer — exact
counts, no reordering. -/
theorem c5_document_renderer_scenario :
    parse_markdown_to_flowables "### Results\n- Accuracy: 92%\n- Speed: 10ms\n\nSummary text here."
      = [Flowable.par "<b>Results</b>" .body, Flowable.spacer 100,
         Flowable.par "• Accuracy: 92%" .listItem, Flowable.spacer 50,
         Flowable.par "• Speed: 10ms" .listItem, Flowable.spacer 50,
         Flowable.par "Summary text here." .body, Flowable.spacer 100] := by
  decide

/-- C2 counterexample: the claim says at most 6 bullet/numbered items are
emitted within a single render call, but a `###` header line resets the
item counter (ppt_generator.py 580), so this single call emits 7 bullet
items. -/
theorem c2_counterexample :
    6 < countListItems
      (add_formatted_text [] "- a1\n- a2\n- a3\n- a4\n- a5\n- a6\n### H\n- a7") := by
  decide

/-- C6 counterexample: when the first results-heading phrase in the
experiments field is `### Main Findings`, the setup split stops before it
but the quantitative-results scan (which only looks for `### Key Results`
and `### Key Quantitative Results`, ppt_generator.py 383) never triggers
and falls back to the whole field — the claimed two-way split into "lines
before" and "lines from the matched heading onward" does not hold. -/
theorem c6_counterexample :
    setup_content "Datasets\n### Main Findings\n- good" = "Datasets"
    ∧ quantitative_results_content "Datasets\n### Main Findings\n- good"
        = "Datasets\n### Main Findings\n- good"
    ∧ ("Datasets\n### Main Findings\n- good" : String) ≠ "### Main Findings\n- good" := by
  refine ⟨by decide, by decide, by decide⟩

/-- C7 counterexample: the slide renderer's inline-formatting variant
(`_parse_inline_formatting`) does not mark the bold content at all — it
strips the markers and returns plain text, so its output on `"**bold**"`
is identical to its output on the unmarked `"bold"`; no Bold span exists
in the slide output. -/
theorem c7_counterexample :
    parse_inline_formatting "**bold**" = "bold"
    ∧ parse_inline_formatting "bold" = "bold" := by
  refine ⟨by decide, by decide⟩

/-- C1 counterexample: for a whitespace-only document
`generate_powerpoint` does not raise (truthiness, not `strip()`, guards
the empty-content check) and emits a cover/thank-you deck, and for an
all-empty document the PDF export has no empty-content guard at all and
builds a near-empty story holding only the title — neither exporter
satisfies "fail fast and produce no output artifact". -/
theorem c1_counterexample :
    generate_powerpoint [("conclusion", " ")] = Except.ok [Slide.cover, Slide.thankYou]
    ∧ buildStory ⟨"T", "", "", "", "", "", "", "", "", ""⟩
        = [Flowable.par "T" .titleStyle, Flowable.spacer 200] := by
  refine ⟨rfl, by decide⟩

/-! ### C7: inline bold formatting -/

/-- C7 (amended): for text containing a well-delimited bold span
`"**bold**"` (no marker characters in the surrounding text), the HTML
inline formatter produces `<b>bold</b>` — the content marked as a Bold
span — and the slide renderer's variant strips the markers, emitting the
content as plain text with no Bold marking; in both outputs no stray
star characters from the bold markers remain, and the doubled-marker
bold pass runs before the single-marker italic pass (pipeline order of
`htmlInline` and `pptInline`). -/
theorem c7_amended (pre post : List Char)
    (hp : ∀ c ∈ pre, c ≠ '*' ∧ c ≠ '_' ∧ c ≠ backquote ∧ c ≠ '[')
    (hq : ∀ c ∈ post, c ≠ '*' ∧ c ≠ '_' ∧ c ≠ backquote ∧ c ≠ '[') :
    markdown_to_html_inline ⟨pre ++ "**bold**".toList ++ post⟩
        = ⟨pre ++ "<b>bold</b>".toList ++ post⟩
    ∧ parse_inline_formatting ⟨pre ++ "**bold**".toList ++ post⟩
        = ⟨pre ++ "bold".toList ++ post⟩
    ∧ '*' ∉ pre ++ "<b>bold</b>".toList ++ post
    ∧ '*' ∉ pre ++ "bold".toList ++ post := by
  have hpStar : '*' ∉ pre := fun h => (hp _ h).1 rfl
  have hpUnd : '_' ∉ pre := fun h => (hp _ h).2.1 rfl
  have hpTick : backquote ∉ pre := fun h => (hp _ h).2.2.1 rfl
  have hpBr : '[' ∉ pre := fun h => (hp _ h).2.2.2 rfl
  have hqStar : '*' ∉ post := fun h => (hq _ h).1 rfl
  have hqUnd : '_' ∉ post := fun h => (hq _ h).2.1 rfl
  have hqTick : backquote ∉ post := fun h => (hq _ h).2.2.1 rfl
  have hqBr : '[' ∉ post := fun h => (hq _ h).2.2.2 rfl
  have hmidStar : '*' ∉ ("bold".toList : List Char) := by decide
  have hmidNl : '\n' ∉ ("bold".toList : List Char) := by decide
  -- the first (doubled-star bold) pass of both pipelines
  have keyH : scanSub matchBoldStarH (pre ++ "**bold**".toList ++ post)
      = pre ++ "<b>bold</b>".toList ++ post := by
    rw [List.append_assoc]
    rw [scanSub_append_no_key matchBoldStarH '*' matchBoldStarH_no_key pre _ hpStar]
    have hfire := matchBoldStarH_fire "bold".toList post hmidStar hmidNl
    rw [show ("**bold**".toList ++ post : List Char)
          = '*' :: '*' :: ("bold".toList ++ '*' :: '*' :: post) from rfl]
    rw [scanSub_cons_some matchBoldStarH matchBoldStarH_shrink '*' _ _ hfire]
    rw [scanSub_no_key matchBoldStarH '*' matchBoldStarH_no_key post hqStar]
    rw [← List.append_assoc]
    rfl
  have keyP : scanSub matchBoldStarP (pre ++ "**bold**".toList ++ post)
      = pre ++ "bold".toList ++ post := by
    rw [List.append_assoc]
    rw [scanSub_append_no_key matchBoldStarP '*' matchBoldStarP_no_key pre _ hpStar]
    have hfire := matchBoldStarP_fire "bold".toList post hmidStar hmidNl
    rw [show ("**bold**".toList ++ post : List Char)
          = '*' :: '*' :: ("bold".toList ++ '*' :: '*' :: post) from rfl]
    rw [scanSub_cons_some matchBoldStarP matchBoldStarP_shrink '*' _ _ hfire]
    rw [scanSub_no_key matchBoldStarP '*' matchBoldStarP_no_key post hqStar]
    rw [← List.append_assoc]
  have hne : (⟨pre ++ "**bold**".toList ++ post⟩ : String) ≠ "" := by
    apply mk_ne_empty
    intro e
    have := congrArg List.length e
    simp at this
  have noStarH : '*' ∉ pre ++ "<b>bold</b>".toList ++ post :=
    notin_append3 hpStar (by decide) hqStar
  have noStarP : '*' ∉ pre ++ "bold".toList ++ post :=
    notin_append3 hpStar (by decide) hqStar
  refine ⟨?_, ?_, noStarH, noStarP⟩
  · rw [markdown_to_html_inline, if_neg hne]
    show (⟨htmlInline (pre ++ "**bold**".toList ++ post)⟩ : String) = _
    rw [htmlInline, keyH,
        scanSub_no_key matchBoldUndH '_' matchBoldUndH_no_key _
          (notin_append3 hpUnd (by decide) hqUnd),
        scanSub_no_key matchItalStarH '*' matchItalStarH_no_key _ noStarH,
        scanSub_no_key matchItalUndH '_' matchItalUndH_no_key _
          (notin_append3 hpUnd (by decide) hqUnd),
        scanSub_no_key matchCodeH backquote matchCodeH_no_key _
          (notin_append3 hpTick (by decide) hqTick),
        scanSub_no_key matchLinkH '[' matchLinkH_no_key _
          (notin_append3 hpBr (by decide) hqBr)]
  · rw [parse_inline_formatting]
    show (⟨pptInline (pre ++ "**bold**".toList ++ post)⟩ : String) = _
    rw [pptInline, keyP,
        scanSub_no_key matchItalStarP '*' matchItalStarP_no_key _ noStarP,
        scanSub_no_key matchCodeP backquote matchCodeP_no_key _
          (notin_append3 hpTick (by decide) hqTick)]

/-- C7 witness: the amended theorem applied to the concrete text
`"say **bold** now"`. -/
theorem c7_witness :
    markdown_to_html_inline "say **bold** now" = "say <b>bold</b> now"
    ∧ parse_inline_formatting "say **bold** now" = "say bold now" := by
  have h := c7_amended "say ".toList " now".toList (by decide) (by decide)
  exact ⟨h.1, h.2.1⟩

/-! ### Lemmas about `pyStrip` and `pySplit` -/

theorem pyStrip_parts (s : List Char) (h : pyStrip s = s) :
    s.dropWhile pySpaceB = s ∧ s.reverse.dropWhile pySpaceB = s.reverse := by
  have hX : s.dropWhile pySpaceB = s := by
    have hsub : (s.dropWhile pySpaceB).Sublist s := List.dropWhile_sublist _
    apply hsub.eq_of_length
    have l1 : (pyStrip s).length ≤ (s.dropWhile pySpaceB).length := by
      rw [pyStrip]
      calc ((s.dropWhile pySpaceB).reverse.dropWhile pySpaceB).reverse.length
          = ((s.dropWhile pySpaceB).reverse.dropWhile pySpaceB).length := by
            rw [List.length_reverse]
        _ ≤ (s.dropWhile pySpaceB).reverse.length := ((List.dropWhile_sublist _).length_le)
        _ = (s.dropWhile pySpaceB).length := by rw [List.length_reverse]
    have l2 : (s.dropWhile pySpaceB).length ≤ s.length := (List.dropWhile_sublist _).length_le
    rw [h] at l1
    omega
  refine ⟨hX, ?_⟩
  have h2 : ((s.reverse.dropWhile pySpaceB)).reverse = s := by
    rw [pyStrip, hX] at h
    exact h
  have := congrArg List.reverse h2
  rwa [List.reverse_reverse] at this

theorem dropWhile_id_head (p : Char → Bool) (c : Char) (t : List Char)
    (h : List.dropWhile p (c :: t) = c :: t) : p c = false := by
  by_cases hp : p c = true
  · rw [List.dropWhile_cons_of_pos hp] at h
    have := congrArg List.length h
    have hle : (List.dropWhile p t).length ≤ t.length := (List.dropWhile_sublist _).length_le
    simp at this
    omega
  · exact Bool.eq_false_iff.mpr hp

theorem pyStrip_dash_space (s : List Char) (h : pyStrip s = s) (hne : s ≠ []) :
    pyStrip ('-' :: ' ' :: s) = '-' :: ' ' :: s := by
  obtain ⟨h1, h2⟩ := pyStrip_parts s h
  have hd1 : List.dropWhile pySpaceB ('-' :: ' ' :: s) = '-' :: ' ' :: s :=
    List.dropWhile_cons_of_neg (by decide)
  have hrev : ('-' :: ' ' :: s).reverse = s.reverse ++ [' ', '-'] := by
    simp
  have hrne : s.reverse ≠ [] := by
    intro e
    exact hne (by simpa using congrArg List.reverse e)
  obtain ⟨c0, t0, hct⟩ := List.exists_cons_of_ne_nil hrne
  have hp0 : pySpaceB c0 = false := by
    apply dropWhile_id_head pySpaceB c0 t0
    rw [← hct]
    exact h2
  have hd2 : List.dropWhile pySpaceB (('-' :: ' ' :: s).reverse) = ('-' :: ' ' :: s).reverse := by
    rw [hrev, hct, List.cons_append, List.dropWhile_cons_of_neg (by simp [hp0])]
  rw [pyStrip, hd1, hd2, List.reverse_reverse]

theorem splitFirst_single_none (c : Char) :
    ∀ s, c ∉ s → splitFirst [c] s = none := by
  intro s
  induction s with
  | nil => intro _; rfl
  | cons a t ih =>
    intro h
    have ha : a ≠ c := fun e => h (e ▸ List.mem_cons_self a t)
    rw [splitFirst]
    have hpre : [c].isPrefixOf (a :: t) = false := by
      simp [List.isPrefixOf]
      exact fun e => ha e.symm
    rw [hpre]
    simp [ih (fun hm => h (List.mem_cons_of_mem a hm))]

theorem pySplit_none (sep s : List Char) (h : splitFirst sep s = none) :
    pySplit sep s = [s] := by
  rw [pySplit]
  show (match splitFirst sep s with
        | none => [s]
        | some p => p.1 :: pySplitGo sep s.length p.2) = [s]
  rw [h]

theorem pySplit_single_line (l : List Char) (h : '\n' ∉ l) :
    pySplit ['\n'] l = [l] :=
  pySplit_none _ _ (splitFirst_single_none '\n' l h)

theorem pptInline_id (s : List Char) (h1 : '*' ∉ s) (h2 : backquote ∉ s) :
    pptInline s = s := by
  rw [pptInline, scanSub_no_key matchBoldStarP '*' matchBoldStarP_no_key s h1,
      scanSub_no_key matchItalStarP '*' matchItalStarP_no_key s h1,
      scanSub_no_key matchCodeP backquote matchCodeP_no_key s h2]

/-! ### C3: list-item truncation boundary -/

theorem pyStrip_num_space (s : List Char) (h : pyStrip s = s) (hne : s ≠ []) :
    pyStrip ('1' :: '.' :: ' ' :: s) = '1' :: '.' :: ' ' :: s := by
  obtain ⟨h1, h2⟩ := pyStrip_parts s h
  have hd1 : List.dropWhile pySpaceB ('1' :: '.' :: ' ' :: s) = '1' :: '.' :: ' ' :: s :=
    List.dropWhile_cons_of_neg (by decide)
  have hrev : ('1' :: '.' :: ' ' :: s).reverse = s.reverse ++ [' ', '.', '1'] := by
    simp
  have hrne : s.reverse ≠ [] := by
    intro e
    exact hne (by simpa using congrArg List.reverse e)
  obtain ⟨c0, t0, hct⟩ := List.exists_cons_of_ne_nil hrne
  have hp0 : pySpaceB c0 = false := by
    apply dropWhile_id_head pySpaceB c0 t0
    rw [← hct]
    exact h2
  have hd2 : List.dropWhile pySpaceB (('1' :: '.' :: ' ' :: s).reverse)
      = ('1' :: '.' :: ' ' :: s).reverse := by
    rw [hrev, hct, List.cons_append, List.dropWhile_cons_of_neg (by simp [hp0])]
  rw [pyStrip, hd1, hd2, List.reverse_reverse]

/-- C3: for every bullet or numbered-item text rendered by the slide
renderer (here marker-free single lines `- s` and `1. s`, so that
inline-marker stripping is the identity): at most 100 characters is
emitted untruncated; over 100 characters, the emitted text is the first
97 characters of the content followed by the ellipsis marker `...` —
on both the bullet path (ppt_generator.py 591-596) and the
numbered-item path (ppt_generator.py 620-625). -/
theorem c3_truncation_boundary (s : List Char) (h0 : s ≠ []) (h1 : pyStrip s = s)
    (h2 : ∀ c ∈ s, c ≠ '*' ∧ c ≠ backquote ∧ c ≠ '\n') :
    (s.length ≤ 100 →
      add_formatted_text [] ⟨'-' :: ' ' :: s⟩ = [⟨PKind.bullet, ⟨s⟩⟩]
      ∧ add_formatted_text [] ⟨'1' :: '.' :: ' ' :: s⟩ = [⟨PKind.numbered, ⟨s⟩⟩])
    ∧ (100 < s.length →
      add_formatted_text [] ⟨'-' :: ' ' :: s⟩
          = [⟨PKind.bullet, ⟨s.take 97 ++ "...".toList⟩⟩]
      ∧ add_formatted_text [] ⟨'1' :: '.' :: ' ' :: s⟩
          = [⟨PKind.numbered, ⟨s.take 97 ++ "...".toList⟩⟩]) := by
  have hnlB : '\n' ∉ ('-' :: ' ' :: s) := by
    intro hm
    rcases List.mem_cons.mp hm with e | hm'
    · exact absurd e (by decide)
    rcases List.mem_cons.mp hm' with e | hm''
    · exact absurd e (by decide)
    · exact (h2 _ hm'').2.2 rfl
  have hnlN : '\n' ∉ ('1' :: '.' :: ' ' :: s) := by
    intro hm
    rcases List.mem_cons.mp hm with e | hm'
    · exact absurd e (by decide)
    rcases List.mem_cons.mp hm' with e | hm2
    · exact absurd e (by decide)
    rcases List.mem_cons.mp hm2 with e | hm3
    · exact absurd e (by decide)
    · exact (h2 _ hm3).2.2 rfl
  have hneB : (⟨'-' :: ' ' :: s⟩ : String) ≠ "" := mk_ne_empty _ (by simp)
  have hneN : (⟨'1' :: '.' :: ' ' :: s⟩ : String) ≠ "" := mk_ne_empty _ (by simp)
  have hstrB : pyStrip ('-' :: ' ' :: s) = '-' :: ' ' :: s := pyStrip_dash_space s h1 h0
  have hstrN : pyStrip ('1' :: '.' :: ' ' :: s) = '1' :: '.' :: ' ' :: s :=
    pyStrip_num_space s h1 h0
  have hstar : '*' ∉ s := fun hm => (h2 _ hm).1 rfl
  have htick : backquote ∉ s := fun hm => (h2 _ hm).2.1 rfl
  have hbaseB : add_formatted_text [] ⟨'-' :: ' ' :: s⟩
      = (stepLine ⟨[], false, 0, false⟩ ('-' :: ' ' :: s)).frame := by
    rw [add_formatted_text, if_neg hneB]
    show (List.foldl stepLine ⟨[], false, 0, false⟩ (pySplit ['\n'] ('-' :: ' ' :: s))).frame = _
    rw [pySplit_single_line _ hnlB, List.foldl_cons, List.foldl_nil]
  have hbaseN : add_formatted_text [] ⟨'1' :: '.' :: ' ' :: s⟩
      = (stepLine ⟨[], false, 0, false⟩ ('1' :: '.' :: ' ' :: s)).frame := by
    rw [add_formatted_text, if_neg hneN]
    show (List.foldl stepLine ⟨[], false, 0, false⟩
        (pySplit ['\n'] ('1' :: '.' :: ' ' :: s))).frame = _
    rw [pySplit_single_line _ hnlN, List.foldl_cons, List.foldl_nil]
  have htwS : s.takeWhile pySpaceB = [] := by
    obtain ⟨c0, t0, hs2⟩ := List.exists_cons_of_ne_nil h0
    have hpp := (pyStrip_parts s h1).1
    rw [hs2] at hpp ⊢
    rw [List.takeWhile_cons_of_neg (by simp [dropWhile_id_head pySpaceB c0 t0 hpp])]
  have hnum : numItem ('1' :: '.' :: ' ' :: s) = some s := by
    show some (s.drop (s.takeWhile pySpaceB).length) = some s
    rw [htwS]
    rfl
  have hstepB : ∀ bt, pyStrip ((('-' :: ' ' :: s) : List Char).drop 2) = bt →
      stepLine ⟨[], false, 0, false⟩ ('-' :: ' ' :: s)
        = ⟨[⟨PKind.bullet, ⟨pptInline (if 100 < bt.length then bt.take 97 ++ "...".toList else bt)⟩⟩],
           true, 1, false⟩ := by
    intro bt hbt
    rw [stepLine]
    simp only [hstrB, hbt]
    rw [if_neg (by simp : ¬ (false = true))]
    rw [if_neg (by simp : ¬ (('-' :: ' ' :: s : List Char) = []))]
    rw [if_neg (by simp [List.isPrefixOf] : ¬ ("###".toList.isPrefixOf ('-' :: ' ' :: s) = true))]
    rw [if_pos (by simp [isBulletLine, List.isPrefixOf] : isBulletLine ('-' :: ' ' :: s) = true)]
    rw [if_neg (by omega : ¬ (6 ≤ 0))]
    simp
  have hstepN : stepLine ⟨[], false, 0, false⟩ ('1' :: '.' :: ' ' :: s)
      = ⟨[⟨PKind.numbered, ⟨pptInline (if 100 < s.length then s.take 97 ++ "...".toList else s)⟩⟩],
         true, 1, false⟩ := by
    rw [stepLine]
    simp only [hstrN]
    rw [if_neg (by simp : ¬ (false = true))]
    rw [if_neg (by simp : ¬ (('1' :: '.' :: ' ' :: s : List Char) = []))]
    rw [if_neg (by simp [List.isPrefixOf] :
          ¬ ("###".toList.isPrefixOf ('1' :: '.' :: ' ' :: s) = true))]
    rw [if_neg (by simp [isBulletLine, List.isPrefixOf] :
          ¬ (isBulletLine ('1' :: '.' :: ' ' :: s) = true))]
    rw [hnum]
    dsimp only
    rw [if_neg (by omega : ¬ (6 ≤ 0))]
    simp
  have hidT : pptInline (s.take 97 ++ "...".toList) = s.take 97 ++ "...".toList := by
    apply pptInline_id
    · intro hm
      rcases List.mem_append.mp hm with hm' | hm'
      · exact hstar (List.take_subset _ _ hm')
      · exact absurd hm' (by decide)
    · intro hm
      rcases List.mem_append.mp hm with hm' | hm'
      · exact htick (List.take_subset _ _ hm')
      · exact absurd hm' (by decide)
  constructor
  · intro hlen
    constructor
    · rw [hbaseB, hstepB s (by simpa using h1)]
      rw [if_neg (by omega : ¬ (100 < s.length)), pptInline_id s hstar htick]
    · rw [hbaseN, hstepN]
      rw [if_neg (by omega : ¬ (100 < s.length)), pptInline_id s hstar htick]
  · intro hlen
    constructor
    · rw [hbaseB, hstepB s (by simpa using h1)]
      rw [if_pos hlen, hidT]
    · rw [hbaseN, hstepN]
      rw [if_pos hlen, hidT]

/-- C3 witness: the truncation boundary at concrete bullet and
numbered-item texts of lengths 100 and 101. -/
theorem c3_witness :
    (add_formatted_text [] ⟨'-' :: ' ' :: List.replicate 100 'a'⟩
        = [⟨PKind.bullet, ⟨List.replicate 100 'a'⟩⟩]
      ∧ add_formatted_text [] ⟨'1' :: '.' :: ' ' :: List.replicate 100 'a'⟩
        = [⟨PKind.numbered, ⟨List.replicate 100 'a'⟩⟩])
    ∧ (add_formatted_text [] ⟨'-' :: ' ' :: List.replicate 101 'a'⟩
        = [⟨PKind.bullet, ⟨(List.replicate 101 'a').take 97 ++ "...".toList⟩⟩]
      ∧ add_formatted_text [] ⟨'1' :: '.' :: ' ' :: List.replicate 101 'a'⟩
        = [⟨PKind.numbered, ⟨(List.replicate 101 'a').take 97 ++ "...".toList⟩⟩]) :=
  ⟨(c3_truncation_boundary (List.replicate 100 'a') (by decide) (by decide) (by decide)).1
      (by decide),
   (c3_truncation_boundary (List.replicate 101 'a') (by decide) (by decide) (by decide)).2
      (by decide)⟩

/-! ### C9: the slide renderer appends and is frame-independent -/

theorem modLast_append (g f : List SPara) (a : String) (hf : f ≠ []) :
    modLast (g ++ f) a = g ++ modLast f a := by
  induction g with
  | nil => rfl
  | cons x g' ih =>
    obtain ⟨y, ys, hgf⟩ :=
      List.exists_cons_of_ne_nil (show g' ++ f ≠ [] from
        fun e => hf (List.append_eq_nil.mp e).2)
    calc modLast ((x :: g') ++ f) a
        = modLast (x :: y :: ys) a := by rw [List.cons_append, hgf]
      _ = x :: modLast (y :: ys) a := rfl
      _ = x :: modLast (g' ++ f) a := by rw [hgf]
      _ = x :: (g' ++ modLast f a) := by rw [ih]
      _ = (x :: g') ++ modLast f a := rfl

theorem modLast_ne_nil (f : List SPara) (a : String) (hf : f ≠ []) :
    modLast f a ≠ [] := by
  cases f with
  | nil => exact absurd rfl hf
  | cons p f' => cases f' <;> simp [modLast]

/-- `current_paragraph`, when set, is the last paragraph this call added:
in particular the frame is non-empty. -/
def stInv (st : FmtState) : Prop :=
  st.started = true → st.frame ≠ []

theorem stepLine_inv (st : FmtState) (line : List Char) (h : stInv st) :
    stInv (stepLine st line) := by
  obtain ⟨f, sd, cnt, sp⟩ := st
  have h' : sd = true → f ≠ [] := h
  simp only [stepLine]
  cases hnum : numItem (pyStrip line) <;>
    dsimp only <;>
    split_ifs <;>
      intro hs <;>
        first
        | exact h' hs
        | exact modLast_ne_nil f _ (h' hs)
        | (simp; done)

theorem stepLine_prefix (st : FmtState) (line : List Char) (g : List SPara)
    (hinv : stInv st) :
    stepLine { st with frame := g ++ st.frame } line
      = { stepLine st line with frame := g ++ (stepLine st line).frame } := by
  obtain ⟨f, sd, cnt, sp⟩ := st
  have h' : sd = true → f ≠ [] := hinv
  simp only [stepLine]
  cases hnum : numItem (pyStrip line) <;>
    dsimp only <;>
    split_ifs <;>
      first
      | rfl
      | (rename_i hsd _
         exact congrArg (fun fr => FmtState.mk fr sd cnt sp)
           (modLast_append g f _ (h' hsd.1)))
      | (simp [List.append_assoc]; done)

theorem foldl_stepLine_prefix :
    ∀ (lines : List (List Char)) (st : FmtState) (g : List SPara), stInv st →
      List.foldl stepLine { st with frame := g ++ st.frame } lines
        = { List.foldl stepLine st lines with
            frame := g ++ (List.foldl stepLine st lines).frame } := by
  intro lines
  induction lines with
  | nil => intro st g _; rfl
  | cons l ls ih =>
    intro st g hinv
    rw [List.foldl_cons, List.foldl_cons, stepLine_prefix st l g hinv,
        ih (stepLine st l) g (stepLine_inv st l hinv)]

/-- C9: rendering is a function of the input text only — the slide
renderer appends to whatever frame it is given exactly the paragraphs it
would produce on a fresh frame, with no hidden state carried across
calls (`bullet_count` and `current_paragraph` are reinitialised per
call), so two calls on fresh text frames produce identical output; the
document renderer's flowable parser is likewise embedded as a pure
function of the text. -/
theorem c9_renderer_no_hidden_state (frame : List SPara) (content : String) :
    add_formatted_text frame content = frame ++ add_formatted_text [] content := by
  by_cases hc : content = ""
  · rw [add_formatted_text, add_formatted_text, if_pos hc, if_pos hc, List.append_nil]
  · rw [add_formatted_text, add_formatted_text, if_neg hc, if_neg hc]
    have h0 : stInv ⟨[], false, 0, false⟩ := by intro h; simp at h
    have := foldl_stepLine_prefix (pySplit ['\n'] content.data) ⟨[], false, 0, false⟩ frame h0
    simp only [List.append_nil] at this
    rw [this]

/-! ### C2: the six-item limit -/

theorem countListItems_append_one (f : List SPara) (p : SPara) :
    countListItems (f ++ [p]) = countListItems f + countListItems [p] := by
  simp [countListItems, List.filter_append]

theorem countListItems_modLast (f : List SPara) (a : String) :
    countListItems (modLast f a) = countListItems f := by
  induction f with
  | nil => rfl
  | cons p f' ih =>
    have hcons : ∀ (x : SPara) (l : List SPara),
        countListItems (x :: l) = countListItems [x] + countListItems l := by
      intro x l
      simp only [countListItems, List.filter_cons, List.filter_nil]
      split_ifs <;> simp [Nat.add_comm]
    cases f' with
    | nil =>
      show countListItems [{ p with text := p.text ++ " " ++ a }] = countListItems [p]
      obtain ⟨k, t⟩ := p
      simp only [countListItems, List.filter_cons, List.filter_nil]
      dsimp only
      split_ifs <;> rfl
    | cons q qs =>
      show countListItems (p :: modLast (q :: qs) a) = countListItems (p :: q :: qs)
      rw [hcons p (modLast (q :: qs) a), hcons p (q :: qs), ih]

theorem foldl_count_bound :
    ∀ (lines : List (List Char)) (st : FmtState),
      (∀ l ∈ lines, ("###".toList.isPrefixOf (pyStrip l)) = false) →
      countListItems ((List.foldl stepLine st lines).frame)
        ≤ countListItems st.frame + (6 - min st.count 6) := by
  intro lines
  induction lines with
  | nil =>
    intro st _
    simp
  | cons l ls ih =>
    intro st hh
    have hl : ("###".toList.isPrefixOf (pyStrip l)) = false := hh l (List.mem_cons_self _ _)
    have hls : ∀ x ∈ ls, ("###".toList.isPrefixOf (pyStrip x)) = false :=
      fun x hx => hh x (List.mem_cons_of_mem _ hx)
    rw [List.foldl_cons]
    refine le_trans (ih (stepLine st l) hls) ?_
    obtain ⟨f, sd, cnt, sp⟩ := st
    simp only [stepLine, hl, Bool.false_eq_true, if_false]
    cases hnum : numItem (pyStrip l) <;>
      dsimp only <;>
      split_ifs <;>
        first
        | omega
        | (simp only [countListItems_append_one, countListItems_modLast]
           simp [countListItems, List.filter]
           try omega
           done)

/-- C2 (amended): within a single render call whose content contains no
`###` header line (the header reset is the counterexample's escape
hatch), at most 6 bullet/numbered items are appended to the frame; once
the shared item counter reaches the limit, a further list line silently
stops all remaining output — no error is raised (the embedding is total:
`add_formatted_text` always returns a frame). -/
theorem c2_amended (frame : List SPara) (content : String)
    (h : ∀ l ∈ pySplit ['\n'] content.data, ("###".toList.isPrefixOf (pyStrip l)) = false) :
    countListItems (add_formatted_text frame content) ≤ countListItems frame + 6 := by
  by_cases hc : content = ""
  · rw [add_formatted_text, if_pos hc]
    omega
  · rw [add_formatted_text, if_neg hc]
    have := foldl_count_bound (pySplit ['\n'] content.data) ⟨frame, false, 0, false⟩ h
    simpa using this

/-- C2 witness: the amended bound applied to a concrete header-free
content. -/
theorem c2_amended_witness :
    countListItems (add_formatted_text []
      "- a1\n- a2\n- a3\n- a4\n- a5\n- a6\n- a7\n- a8") ≤ countListItems [] + 6 :=
  c2_amended [] "- a1\n- a2\n- a3\n- a4\n- a5\n- a6\n- a7\n- a8" (by decide)

/-! ### C10: counter dynamics -/

/-- C10: in the slide renderer's line loop, a plain line that starts a new
paragraph increments the shared item counter exactly like a list item,
and a `###` header line resets the counter to zero (so up to 6 further
items may follow the header within the same render call). -/
theorem c10_counter_dynamics (st : FmtState) (line : List Char) (hs : st.stopped = false) :
    ("###".toList.isPrefixOf (pyStrip line) = true → (stepLine st line).count = 0)
    ∧ (pyStrip line ≠ [] →
       "###".toList.isPrefixOf (pyStrip line) = false →
       isBulletLine (pyStrip line) = false →
       numItem (pyStrip line) = none →
       (st.started = false ∨ headUpper (pyStrip line) = true) →
       (stepLine st line).count = st.count + 1) := by
  obtain ⟨f, sd, cnt, sp⟩ := st
  have hsp : ¬ (sp = true) := by simp [show sp = false from hs]
  constructor
  · intro hh
    have hne : ¬ (pyStrip line = []) := by
      intro e
      rw [e] at hh
      exact absurd hh (by decide)
    rw [stepLine, if_neg hsp]
    simp only []
    rw [if_neg hne, if_pos hh]
  · intro h1 h2 h3 h4 h5
    rw [stepLine, if_neg hsp]
    simp only []
    rw [if_neg h1, if_neg (by rw [h2]; exact Bool.false_ne_true),
        if_neg (by rw [h3]; exact Bool.false_ne_true), h4]
    dsimp only
    rw [if_neg ?hcond]
    case hcond =>
      intro hcond
      rcases h5 with h5 | h5
      · have h5' : sd = false := h5
        rw [h5'] at hcond
        exact absurd hcond.1 (by simp)
      · exact absurd h5 hcond.2

/-- C10 witness: the counter dynamics at a concrete state — a header line
resets the counter from 3 to 0; a paragraph-starting line increments it
from 3 to 4. -/
theorem c10_witness :
    (stepLine ⟨[⟨PKind.plain, "x"⟩], true, 3, false⟩ "### Header".toList).count = 0
    ∧ (stepLine ⟨[⟨PKind.plain, "x"⟩], true, 3, false⟩ "Hello world".toList).count = 3 + 1 :=
  ⟨(c10_counter_dynamics ⟨[⟨PKind.plain, "x"⟩], true, 3, false⟩ "### Header".toList rfl).1
      (by decide),
   (c10_counter_dynamics ⟨[⟨PKind.plain, "x"⟩], true, 3, false⟩ "Hello world".toList rfl).2
      (by decide) (by decide) (by decide) (by decide) (by decide)⟩

/-! ### C4: conclusion-only deck -/

theorem dget_default (d : List (String × String)) (k : String) (dflt : String)
    (h : dget d k "" = "") (hd : dflt = "") : dget d k dflt = "" := by
  unfold dget at h ⊢
  cases hl : d.lookup k with
  | some v => rw [hl] at h; exact h
  | none => exact hd

/-- C4: a StructuredDocument in which only `conclusion` is non-blank
produces exactly three slides in order: cover, conclusion, thank-you —
no slide for any other section, and no error from the assembler. -/
theorem c4_conclusion_only_deck (d : List (String × String))
    (h : ∀ k, k ≠ "conclusion" → dget d k "" = "")
    (hc : pyStripS (dget d "conclusion" "") ≠ "") :
    generate_powerpoint d = Except.ok [Slide.cover, Slide.conclusion, Slide.thankYou] := by
  have hcne : dget d "conclusion" "" ≠ "" := by
    intro e
    rw [e] at hc
    exact hc (by decide)
  obtain ⟨v, hv⟩ : ∃ v, d.lookup "conclusion" = some v := by
    unfold dget at hcne
    cases hl : d.lookup "conclusion" with
    | none => rw [hl] at hcne; exact absurd rfl hcne
    | some v => exact ⟨v, rfl⟩
  have hdne : d ≠ [] := by
    intro e
    rw [e] at hv
    simp [List.lookup] at hv
  have habs := h "abstract" (by decide)
  have hintro := h "introduction" (by decide)
  have hlr := h "literature_review" (by decide)
  have hmot := h "motivation" (by decide)
  have hcontrib := h "contribution" (by decide)
  have hhow := h "how_does_paper_do" (by decide)
  have hwhat := h "what_does_paper_do" (by decide)
  have hra := h "results_analysis" (by decide)
  have hdisc := h "discussion" (by decide)
  have hic : introduction_content d = "" :=
    dget_default d "introduction" _ hintro habs
  have e1 : pyInS "Related Work" "" = false := by decide
  have e2 : pyInS "### Related Work" "" = false := by decide
  have e3 : pyInS "### Main Findings" "" = false := by decide
  have hlc : literature_review_content d = "" := by
    simp only [literature_review_content, hlr, hintro, e1, e2]
    simp
  have hqc : qualitative_content d = "" := by
    simp only [qualitative_content, hra, hwhat, e3]
    simp
  have hnb : nonblankB "" = false := by decide
  have hcc : nonblankB (dget d "conclusion" "") = true := by
    simp [nonblankB]
    exact ⟨hcne, hc⟩
  have hgen : generate d = [Slide.cover, Slide.conclusion, Slide.thankYou] := by
    simp only [generate, hic, hlc, hqc, hmot, hcontrib, hhow, hwhat, hdisc, hnb, hcc]
    simp
  have hvne : v ≠ "" := by
    unfold dget at hcne
    rw [hv] at hcne
    exact hcne
  have hhc : content_fields.any (fun f => ((d.lookup f).getD "") != "") = true := by
    apply List.any_eq_true.mpr
    refine ⟨"conclusion", by decide, ?_⟩
    rw [hv]
    simpa using hvne
  rw [generate_powerpoint, if_neg hdne]
  simp only [hhc]
  rw [if_neg (by simp)]
  rw [hgen]

/-- C4 witness: the conclusion-only scenario at a concrete document. -/
theorem c4_witness :
    generate_powerpoint [("conclusion", "Wrap up.")]
      = Except.ok [Slide.cover, Slide.conclusion, Slide.thankYou] :=
  c4_conclusion_only_deck [("conclusion", "Wrap up.")]
    (fun k hk => by
      have hb : (k == "conclusion") = false := beq_eq_false_iff_ne.mpr hk
      simp [dget, List.lookup, hb])
    (by decide)

/-! ### C8: unterminated code fences -/

theorem takeWhile_all {α : Type} (p : α → Bool) :
    ∀ l : List α, (∀ x ∈ l, p x = true) → l.takeWhile p = l := by
  intro l
  induction l with
  | nil => intro _; rfl
  | cons a t ih =>
    intro h
    rw [List.takeWhile_cons_of_pos (h a (List.mem_cons_self a t)),
        ih (fun x hx => h x (List.mem_cons_of_mem a hx))]

theorem dropWhile_all {α : Type} (p : α → Bool) :
    ∀ l : List α, (∀ x ∈ l, p x = true) → l.dropWhile p = [] := by
  intro l
  induction l with
  | nil => intro _; rfl
  | cons a t ih =>
    intro h
    rw [List.dropWhile_cons_of_pos (h a (List.mem_cons_self a t)),
        ih (fun x hx => h x (List.mem_cons_of_mem a hx))]

theorem splitFirst_shrink (sep : List Char) (hsep : sep ≠ []) :
    ∀ s p, splitFirst sep s = some p → p.2.length < s.length := by
  intro s
  induction s with
  | nil => intro p h; exact absurd h (by simp [splitFirst])
  | cons c rest ih =>
    intro p h
    rw [splitFirst] at h
    by_cases hp : sep.isPrefixOf (c :: rest)
    · rw [if_pos hp] at h
      cases h
      have hsl : 1 ≤ sep.length := List.length_pos.mpr hsep
      simp only [List.length_drop, List.length_cons]
      omega
    · rw [if_neg hp] at h
      rcases Option.map_eq_some'.mp h with ⟨q, hq, hpq⟩
      have := ih q hq
      subst hpq
      simp only [List.length_cons]
      omega

theorem pySplitGo_congr (sep : List Char) (hsep : sep ≠ []) :
    ∀ f f' s, s.length < f → s.length < f' → pySplitGo sep f s = pySplitGo sep f' s := by
  intro f
  induction f with
  | zero => intro f' s h _; exact absurd h (Nat.not_lt_zero _)
  | succ n ih =>
    intro f' s h h'
    cases f' with
    | zero => exact absurd h' (Nat.not_lt_zero _)
    | succ m =>
      show (match splitFirst sep s with
            | none => [s]
            | some p => p.1 :: pySplitGo sep n p.2) =
           (match splitFirst sep s with
            | none => [s]
            | some p => p.1 :: pySplitGo sep m p.2)
      cases hsf : splitFirst sep s with
      | none => rfl
      | some p =>
        have := splitFirst_shrink sep hsep s p hsf
        simp [ih m p.2 (by omega) (by omega)]

theorem pySplit_some (sep s : List Char) (hsep : sep ≠ []) (p : List Char × List Char)
    (h : splitFirst sep s = some p) : pySplit sep s = p.1 :: pySplit sep p.2 := by
  rw [pySplit, pySplit]
  show (match splitFirst sep s with
        | none => [s]
        | some q => q.1 :: pySplitGo sep s.length q.2) = _
  rw [h]
  show p.1 :: pySplitGo sep s.length p.2 = _
  have := splitFirst_shrink sep hsep s p h
  rw [pySplitGo_congr sep hsep s.length (p.2.length + 1) p.2 (by omega) (by omega)]

theorem splitFirst_single_append (c : Char) :
    ∀ (l rest : List Char), c ∉ l → splitFirst [c] (l ++ c :: rest) = some (l, rest) := by
  intro l
  induction l with
  | nil =>
    intro rest _
    rw [List.nil_append, splitFirst]
    simp
  | cons a l' ih =>
    intro rest h
    have ha : a ≠ c := fun e => h (e ▸ List.mem_cons_self a l')
    rw [List.cons_append, splitFirst]
    have hpre : [c].isPrefixOf (a :: (l' ++ c :: rest)) = false := by
      simp [List.isPrefixOf]
      exact fun e => ha e.symm
    rw [hpre]
    simp [ih rest (fun hm => h (List.mem_cons_of_mem a hm))]

theorem pySplit_join :
    ∀ (chunks : List (List Char)), chunks ≠ [] → (∀ ch ∈ chunks, '\n' ∉ ch) →
      pySplit ['\n'] (joinWith ['\n'] chunks) = chunks := by
  intro chunks
  induction chunks with
  | nil => intro h _; exact absurd rfl h
  | cons ch cs ih =>
    intro _ hfree
    cases cs with
    | nil => exact pySplit_single_line ch (hfree ch (List.mem_cons_self _ _))
    | cons c2 cs' =>
      show pySplit ['\n'] (ch ++ ['\n'] ++ joinWith ['\n'] (c2 :: cs')) = ch :: c2 :: cs'
      have hsf : splitFirst ['\n'] (ch ++ '\n' :: joinWith ['\n'] (c2 :: cs'))
          = some (ch, joinWith ['\n'] (c2 :: cs')) :=
        splitFirst_single_append '\n' ch _ (hfree ch (List.mem_cons_self _ _))
      rw [List.append_assoc, List.singleton_append,
          pySplit_some ['\n'] _ (by simp) _ hsf,
          ih (by simp) (fun x hx => hfree x (List.mem_cons_of_mem ch hx))]

theorem pmfGo_nil : ∀ fuel, pmfGo fuel [] = [] := by
  intro fuel
  cases fuel <;> rfl

theorem joinWith_cons_ne_nil (sep l : List Char) (ls : List (List Char)) (hl : l ≠ []) :
    joinWith sep (l :: ls) ≠ [] := by
  cases ls with
  | nil => exact hl
  | cons x xs =>
    show l ++ sep ++ joinWith sep (x :: xs) ≠ []
    simp [hl]

/-- C8: when a code fence is opened and no closing fence occurs before the
end of the input, the block parser still emits a single code block
containing all remaining lines (joined with the renderer's separator) as
a monospace flowable, and does not fail. -/
theorem c8_unterminated_fence (opener : List Char) (rest : List (List Char))
    (hop : fenceStartB (pyStrip opener) = true) (hop2 : '\n' ∉ opener)
    (hrest : ∀ l ∈ rest, '\n' ∉ l ∧ fenceStartB (pyStrip l) = false) :
    parse_markdown_to_flowables ⟨joinWith ['\n'] (opener :: rest)⟩
      = [Flowable.par ⟨"<code>".toList ++ joinWith "<br/>".toList rest ++ "</code>".toList⟩
          PStyle.code] := by
  have hopne : opener ≠ [] := by
    intro e
    rw [e] at hop
    exact absurd hop (by decide)
  have hne : (⟨joinWith ['\n'] (opener :: rest)⟩ : String) ≠ "" :=
    mk_ne_empty _ (joinWith_cons_ne_nil _ _ _ hopne)
  have hsplit : pySplit ['\n'] (joinWith ['\n'] (opener :: rest)) = opener :: rest := by
    apply pySplit_join _ (by simp)
    intro ch hch
    rcases List.mem_cons.mp hch with e | hm
    · exact e ▸ hop2
    · exact (hrest ch hm).1
  rw [parse_markdown_to_flowables, if_neg hne]
  show pmfGo ((pySplit ['\n'] (joinWith ['\n'] (opener :: rest))).length + 1)
      (pySplit ['\n'] (joinWith ['\n'] (opener :: rest))) = _
  rw [hsplit]
  have hstrne : ¬ (pyStrip opener = []) := by
    intro e
    rw [e] at hop
    exact absurd hop (by decide)
  have htw : rest.takeWhile (fun l => !fenceStartB (pyStrip l)) = rest := by
    apply takeWhile_all
    intro x hx
    rw [(hrest x hx).2]
    rfl
  have hdw : rest.dropWhile (fun l => !fenceStartB (pyStrip l)) = [] := by
    apply dropWhile_all
    intro x hx
    rw [(hrest x hx).2]
    rfl
  simp only [pmfGo]
  rw [if_neg hstrne, if_pos hop, htw, hdw]
  simp [pmfGo_nil]

/-- C8 witness: the unterminated-fence theorem at a concrete input with
two unfenced code lines. -/
theorem c8_witness :
    parse_markdown_to_flowables
        ⟨joinWith ['\n'] ["```".toList, "print(1)".toList, "x = 2".toList]⟩
      = [Flowable.par
          ⟨"<code>".toList ++ joinWith "<br/>".toList ["print(1)".toList, "x = 2".toList]
            ++ "</code>".toList⟩ PStyle.code] :=
  c8_unterminated_fence "```".toList ["print(1)".toList, "x = 2".toList]
    (by decide) (by decide) (by decide)

/-! ### C6: methodology and experiments splits -/

theorem splitFirst_decomp (sep : List Char) :
    ∀ s p, splitFirst sep s = some p → s = p.1 ++ sep ++ p.2 := by
  intro s
  induction s with
  | nil => simp [splitFirst]
  | cons c rest ih =>
    intro p h
    rw [splitFirst] at h
    by_cases hp : sep.isPrefixOf (c :: rest)
    · rw [if_pos hp] at h
      cases h
      have hpre : sep <+: (c :: rest) := (List.isPrefixOf_iff_prefix).mp hp
      obtain ⟨t, ht⟩ := hpre
      rw [List.nil_append, ← ht, List.drop_left]
    · rw [if_neg hp] at h
      rcases Option.map_eq_some'.mp h with ⟨q, hq, hpq⟩
      subst hpq
      simp only [List.cons_append]
      exact congrArg (List.cons c) (ih q hq)

theorem pySplit_ne_nil (sep s : List Char) : pySplit sep s ≠ [] := by
  rw [pySplit]
  show (match splitFirst sep s with
        | none => [s]
        | some p => p.1 :: pySplitGo sep s.length p.2) ≠ []
  cases splitFirst sep s <;> simp

theorem joinWith_pySplit (sep : List Char) (hsep : sep ≠ []) :
    ∀ n s, s.length ≤ n → joinWith sep (pySplit sep s) = s := by
  intro n
  induction n with
  | zero =>
    intro s h
    have hs : s = [] := List.length_eq_zero.mp (Nat.le_zero.mp h)
    subst hs
    rw [pySplit_none sep [] (by simp [splitFirst])]
    rfl
  | succ n ih =>
    intro s h
    cases hsf : splitFirst sep s with
    | none => rw [pySplit_none sep s hsf]; rfl
    | some p =>
      rw [pySplit_some sep s hsep p hsf]
      have hshr := splitFirst_shrink sep hsep s p hsf
      have hrec := ih p.2 (by omega)
      obtain ⟨r0, rs, hr⟩ := List.exists_cons_of_ne_nil (pySplit_ne_nil sep p.2)
      rw [hr]
      show p.1 ++ sep ++ joinWith sep (r0 :: rs) = s
      rw [← hr, hrec]
      exact (splitFirst_decomp sep s p hsf).symm

theorem splitFirst_boundary (sep : List Char) (hsep : sep ≠ []) :
    ∀ (a b : List Char), splitFirst sep (a ++ sep.dropLast) = none →
      splitFirst sep (a ++ sep ++ b) = some (a, b) := by
  intro a
  induction a with
  | nil =>
    intro b _
    obtain ⟨s0, ss, hsep'⟩ := List.exists_cons_of_ne_nil hsep
    subst hsep'
    show splitFirst (s0 :: ss) ((s0 :: ss) ++ b) = some ([], b)
    rw [List.cons_append, splitFirst]
    rw [if_pos ?hpre]
    case hpre =>
      rw [← List.cons_append, List.isPrefixOf_iff_prefix]
      exact List.prefix_append _ _
    rw [← List.cons_append, List.drop_left]
  | cons x a' ih =>
    intro b h
    rw [List.cons_append, splitFirst] at h
    by_cases hp : sep.isPrefixOf (x :: (a' ++ sep.dropLast)) = true
    · rw [if_pos hp] at h
      exact absurd h (by simp)
    · rw [if_neg hp] at h
      have hinner : splitFirst sep (a' ++ sep.dropLast) = none := by
        cases ho : splitFirst sep (a' ++ sep.dropLast) with
        | none => rfl
        | some q => rw [ho] at h; exact absurd h (by simp)
      have hlast := List.dropLast_append_getLast hsep
      have hp2 : ¬ (sep.isPrefixOf (x :: (a' ++ sep ++ b)) = true) := by
        intro hpre
        apply hp
        rw [List.isPrefixOf_iff_prefix] at hpre ⊢
        have hdecomp : x :: (a' ++ sep ++ b)
            = (x :: (a' ++ sep.dropLast)) ++ (sep.getLast hsep :: b) := by
          conv_lhs => rw [← hlast]
          simp
        have hlen : sep.length ≤ (x :: (a' ++ sep.dropLast)).length := by
          have h1 : sep.dropLast.length = sep.length - 1 := List.length_dropLast sep
          have h2 : 1 ≤ sep.length := List.length_pos.mpr hsep
          simp only [List.length_cons, List.length_append]
          omega
        rw [List.prefix_iff_eq_take] at hpre ⊢
        rw [hdecomp, List.take_append_of_le_length hlen] at hpre
        exact hpre
      rw [List.cons_append, List.cons_append, splitFirst, if_neg hp2, ih b hinner]
      rfl

theorem data_mk (l : List Char) : (⟨l⟩ : String).data = l := rfl

theorem takeWhile_append_all {α : Type} (p : α → Bool) :
    ∀ (u v : List α), (∀ x ∈ u, p x = true) → (u ++ v).takeWhile p = u ++ v.takeWhile p := by
  intro u
  induction u with
  | nil => intro v _; rfl
  | cons a t ih =>
    intro v h
    rw [List.cons_append, List.takeWhile_cons_of_pos (h a (List.mem_cons_self a t)),
        ih v (fun x hx => h x (List.mem_cons_of_mem a hx))]
    rfl

theorem dropWhile_append_all {α : Type} (p : α → Bool) :
    ∀ (u v : List α), (∀ x ∈ u, p x = true) → (u ++ v).dropWhile p = v.dropWhile p := by
  intro u
  induction u with
  | nil => intro v _; rfl
  | cons a t ih =>
    intro v h
    rw [List.cons_append, List.dropWhile_cons_of_pos (h a (List.mem_cons_self a t)),
        ih v (fun x hx => h x (List.mem_cons_of_mem a hx))]

/-- C6 (amended): the methodology field splits at the first `###` exactly
as claimed (text before is the overview, everything after is the
technical details).  The experiments field is split by per-line substring
scans with two different phrase sets: setup is the lines strictly before
the first line containing any of the three results-heading phrases, and
quantitative results is the lines from the first line containing
`### Key Results` or `### Key Quantitative Results` onward (the phrase
`### Main Findings` stops setup but does not start results, which is what
the counterexample exploits). -/
theorem c6_amended :
    (∀ a b : List Char,
      splitFirst "###".toList (a ++ "###".toList.dropLast) = none →
      methodology_overview_content ⟨a ++ "###".toList ++ b⟩ = ⟨a⟩
      ∧ technical_details_content ⟨a ++ "###".toList ++ b⟩ = ⟨b⟩)
    ∧ (∀ (pre : List (List Char)) (hl : List Char) (post : List (List Char)),
        pre ≠ [] →
        (∀ l ∈ pre, '\n' ∉ l
          ∧ pyIn "### Key Results".toList l = false
          ∧ pyIn "### Key Quantitative Results".toList l = false
          ∧ pyIn "### Main Findings".toList l = false) →
        '\n' ∉ hl →
        (pyIn "### Key Results".toList hl = true
          ∨ pyIn "### Key Quantitative Results".toList hl = true) →
        (∀ l ∈ post, '\n' ∉ l) →
        setup_content ⟨joinWith ['\n'] (pre ++ hl :: post)⟩ = ⟨joinWith ['\n'] pre⟩
        ∧ quantitative_results_content ⟨joinWith ['\n'] (pre ++ hl :: post)⟩
            = ⟨joinWith ['\n'] (hl :: post)⟩) := by
  have hsep : ("###".toList : List Char) ≠ [] := by decide
  constructor
  · intro a b hnone
    have hsf : splitFirst "###".toList (a ++ "###".toList ++ b) = some (a, b) :=
      splitFirst_boundary _ hsep a b hnone
    have hsplit : pySplit "###".toList (a ++ "###".toList ++ b)
        = a :: pySplit "###".toList b :=
      pySplit_some _ _ hsep (a, b) hsf
    constructor
    · simp only [methodology_overview_content, data_mk, hsplit]
      rw [if_pos (by simp)]
      rfl
    · simp only [technical_details_content, data_mk, hsplit]
      have hlen : 1 < (a :: pySplit "###".toList b).length := by
        obtain ⟨r0, rs, hr⟩ := List.exists_cons_of_ne_nil (pySplit_ne_nil "###".toList b)
        rw [hr]
        simp only [List.length_cons]
        omega
      rw [if_pos hlen]
      have hjoin : joinWith "###".toList (pySplit "###".toList b) = b :=
        joinWith_pySplit _ hsep b.length b (le_refl _)
      show (⟨joinWith "###".toList (pySplit "###".toList b)⟩ : String) = ⟨b⟩
      rw [hjoin]
  · intro pre hl post hpre hfree hnl htrig hpost
    have hchunks : ∀ ch ∈ pre ++ hl :: post, '\n' ∉ ch := by
      intro ch hch
      rcases List.mem_append.mp hch with hm | hm
      · exact (hfree ch hm).1
      · rcases List.mem_cons.mp hm with e | hm'
        · exact e ▸ hnl
        · exact hpost ch hm'
    have hsplit : pySplit ['\n'] (joinWith ['\n'] (pre ++ hl :: post)) = pre ++ hl :: post :=
      pySplit_join _ (by simp) hchunks
    constructor
    · simp only [setup_content, data_mk, hsplit]
      have htw : (pre ++ hl :: post).takeWhile
          (fun l => !(pyIn "### Key Results".toList l
            || pyIn "### Key Quantitative Results".toList l
            || pyIn "### Main Findings".toList l)) = pre := by
        rw [takeWhile_append_all _ pre _ ?hall]
        case hall =>
          intro x hx
          rw [(hfree x hx).2.1, (hfree x hx).2.2.1, (hfree x hx).2.2.2]
          rfl
        rw [List.takeWhile_cons_of_neg ?hneg, List.append_nil]
        case hneg =>
          rcases htrig with ht | ht <;> rw [ht] <;> simp
      rw [htw, if_pos hpre]
    · simp only [quantitative_results_content, data_mk, hsplit]
      have hdw : (pre ++ hl :: post).dropWhile
          (fun l => !(pyIn "### Key Results".toList l
            || pyIn "### Key Quantitative Results".toList l)) = hl :: post := by
        rw [dropWhile_append_all _ pre _ ?hall2]
        case hall2 =>
          intro x hx
          rw [(hfree x hx).2.1, (hfree x hx).2.2.1]
          rfl
        rw [List.dropWhile_cons_of_neg ?hneg2]
        case hneg2 =>
          rcases htrig with ht | ht <;> rw [ht] <;> simp
      rw [hdw, if_pos (by simp)]

/-- C6 witness: both splits at concrete field texts. -/
theorem c6_witness :
    methodology_overview_content ⟨"Overview ".toList ++ "###".toList ++ " Tech".toList⟩
        = "Overview "
    ∧ technical_details_content ⟨"Overview ".toList ++ "###".toList ++ " Tech".toList⟩
        = " Tech"
    ∧ setup_content ⟨joinWith ['\n']
        (["Datasets used".toList] ++ "### Key Results".toList :: ["- 95%".toList])⟩
        = ⟨joinWith ['\n'] ["Datasets used".toList]⟩
    ∧ quantitative_results_content ⟨joinWith ['\n']
        (["Datasets used".toList] ++ "### Key Results".toList :: ["- 95%".toList])⟩
        = ⟨joinWith ['\n'] ("### Key Results".toList :: ["- 95%".toList])⟩ := by
  have h1 := c6_amended.1 "Overview ".toList " Tech".toList (by decide)
  have h2 := c6_amended.2 ["Datasets used".toList] "### Key Results".toList
    ["- 95%".toList] (by decide) (by decide) (by decide) (by decide) (by decide)
  exact ⟨h1.1, h1.2, h2.1, h2.2⟩

/-! ### C1: empty-content behaviour of the two exporters -/

/-- C1 (amended): only the PowerPoint path fails fast, and only on falsy
fields: for any non-empty analysis dict whose content fields are all the
empty string, `generate_powerpoint` raises the descriptive
empty-content error and produces no deck; the PDF export path has no
such guard — on an all-empty analysis it still builds a (near-empty)
story containing only the title paragraph and a spacer. -/
theorem c1_amended :
    (∀ d : List (String × String), d ≠ [] →
      (∀ f ∈ content_fields, ((d.lookup f).getD "") = "") →
      generate_powerpoint d = Except.error "Analysis data contains no content for slides")
    ∧ (∀ a : Analysis, a.abstract = "" → a.introduction = "" → a.motivation = "" →
        a.contribution = "" → a.how_does_paper_do = "" → a.what_does_paper_do = "" →
        a.limitations_challenges = "" → a.future_work = "" → a.conclusion = "" →
        buildStory a = [Flowable.par a.title PStyle.titleStyle, Flowable.spacer 200]) := by
  constructor
  · intro d hne h
    rw [generate_powerpoint, if_neg hne]
    have hhc : content_fields.any (fun f => ((d.lookup f).getD "") != "") = false := by
      rw [List.any_eq_false]
      intro x hx
      rw [h x hx]
      simp
    simp only [hhc]
    simp
  · intro a h1 h2 h3 h4 h5 h6 h7 h8 h9
    have hs : ∀ t : String, add_section t "" = [] := by
      intro t
      simp [add_section]
    simp only [buildStory, h1, h2, h3, h4, h5, h6, h7, h8, h9, hs]
    simp

/-- C1 witness: the amended behaviour at concrete inputs — the PPT guard
raising on an all-empty dict, and the PDF story builder producing a
title-only story for an all-empty analysis. -/
theorem c1_amended_witness :
    generate_powerpoint [("introduction", ""), ("conclusion", "")]
        = Except.error "Analysis data contains no content for slides"
    ∧ buildStory ⟨"T", "", "", "", "", "", "", "", "", ""⟩
        = [Flowable.par "T" PStyle.titleStyle, Flowable.spacer 200] :=
  ⟨c1_amended.1 [("introduction", ""), ("conclusion", "")] (by decide) (by decide),
   c1_amended.2 ⟨"T", "", "", "", "", "", "", "", "", ""⟩
     rfl rfl rfl rfl rfl rfl rfl rfl rfl⟩
